import Mathlib

/-!
Shallow embedding of the `restsuite` / `suitepy` OAuth 1.0a signer and the
SuiteQL pagination driver, together with theorems settling the frozen claims.

Conventions of the embedding:
* Python byte strings are `List Nat` (each element < 256).
* Python `str` is Lean `String`; `str.encode('utf-8')` is `strBytes`.
* Python `None`-able string attributes are `Option String`; formatting an
  attribute with `"{}".format(x)` applies `str`, rendering `None` as `"None"`
  (`pyStr`).
* Python dictionaries with string keys and string values are association
  lists (`Dict`) with insert-overwrite semantics (`dictInsert`), which
  preserves insertion order exactly as CPython dicts do.
* Exceptions are modelled with `Except PyErr`; mutation of `self` is
  modelled by state-passing (each mutating method returns the new object
  state, paired with the returned value / raised exception where needed).
* Randomness (`uuid`) and wall-clock time (`time.time()`) are modelled by
  explicit `nonce` / `timestamp` arguments supplied to the signing call.
-/

set_option maxRecDepth 4000

namespace Restsuite

/-- Errors a modelled Python call can raise. -/
inductive PyErr where
  | typeError
  | keyError (k : String)
deriving DecidableEq, Repr

/-- `str(x)` for an optional string attribute: `None` renders as `"None"`. -/
def pyStr : Option String → String
  | some s => s
  | none => "None"

/-- UTF-8 octets of one character (the encoding used by `str.encode` in
CPython, RFC 3629). -/
def utf8EncodeCharBytes (c : Char) : List Nat :=
  let n := c.toNat
  if n < 128 then [n]
  else if n < 2048 then
    [192 + n / 64, 128 + n % 64]
  else if n < 65536 then
    [224 + n / 4096, 128 + n / 64 % 64, 128 + n % 64]
  else
    [240 + n / 262144, 128 + n / 4096 % 64, 128 + n / 64 % 64, 128 + n % 64]

/-- UTF-8 octets of a string (`s.encode('utf-8')`). -/
def strBytes (s : String) : List Nat :=
  s.data.flatMap utf8EncodeCharBytes

/-- Uppercase hexadecimal digit for `n < 16`. -/
def hexDigitUpper (n : Nat) : Char :=
  if n < 10 then Char.ofNat (48 + n) else Char.ofNat (55 + n)

/-- `%XX` escape of a byte, hex digits uppercase (as `urllib.parse.quote`
emits them). -/
def pctEscape (b : Nat) : String :=
  ⟨['%', hexDigitUpper (b / 16), hexDigitUpper (b % 16)]⟩

/-- The bytes `urllib.parse.quote` leaves unescaped when called with
`safe='-._~'`: ASCII alphanumerics (always safe) plus `-`, `.`, `_`, `~`.
These are exactly the RFC 3986 section 2.3 unreserved characters. -/
def isUnreservedByte (b : Nat) : Bool :=
  (65 ≤ b && b ≤ 90) || (97 ≤ b && b ≤ 122) || (48 ≤ b && b ≤ 57) ||
    b == 45 || b == 46 || b == 95 || b == 126

/-- One byte of `urllib.parse.quote_plus(_, safe='-._~')` output: unreserved
bytes pass through, the space byte becomes `+`, everything else is
percent-escaped with uppercase hex. -/
def quotePlusByte (b : Nat) : String :=
  if isUnreservedByte b then String.singleton (Char.ofNat b)
  else if b == 32 then "+"
  else pctEscape b

namespace NetsuiteOAuth

/-- `NetsuiteOAuth.encode_oauth` (auth.py:244-277): the body is exactly
`urllib.parse.quote_plus(_string, safe='-._~')`, i.e. UTF-8 encode and then
escape per byte, with the space byte rendered as `+`. -/
def encode_oauth (s : String) : String :=
  String.join ((strBytes s).map quotePlusByte)

end NetsuiteOAuth

/-! ### SHA-256, HMAC-SHA256 and Base64

`hashlib.sha256`, `hmac.new(..., digestmod=hashlib.sha256)` and
`base64.b64encode` implement the standard FIPS 180-4 / RFC 2104 / RFC 4648
algorithms; these definitions are direct transcriptions of those algorithms
over byte lists. -/

/-- Truncate to a 32-bit word. -/
def w32 (n : Nat) : Nat := n % 4294967296

/-- 32-bit right rotation (argument assumed < 2^32). -/
def rotr32 (x n : Nat) : Nat := w32 ((x >>> n) ||| (x <<< (32 - n)))

/-- 32-bit bitwise complement. -/
def not32 (x : Nat) : Nat := Nat.xor x 4294967295

/-- The 64 SHA-256 round constants. -/
def sha256K : List Nat :=
  [1116352408, 1899447441, 3049323471, 3921009573,
   961987163, 1508970993, 2453635748, 2870763221,
   3624381080, 310598401, 607225278, 1426881987,
   1925078388, 2162078206, 2614888103, 3248222580,
   3835390401, 4022224774, 264347078, 604807628,
   770255983, 1249150122, 1555081692, 1996064986,
   2554220882, 2821834349, 2952996808, 3210313671,
   3336571891, 3584528711, 113926993, 338241895,
   666307205, 773529912, 1294757372, 1396182291,
   1695183700, 1986661051, 2177026350, 2456956037,
   2730485921, 2820302411, 3259730800, 3345764771,
   3516065817, 3600352804, 4094571909, 275423344,
   430227734, 506948616, 659060556, 883997877,
   958139571, 1322822218, 1537002063, 1747873779,
   1955562222, 2024104815, 2227730452, 2361852424,
   2428436474, 2756734187, 3204031479, 3329325298]

/-- The SHA-256 initial hash value. -/
def sha256Init : List Nat :=
  [1779033703, 3144134277, 1013904242, 2773480762,
   1359893119, 2600822924, 528734635, 1541459225]

/-- Big-endian 4-byte groups to 32-bit words. -/
def bytesToWords : List Nat → List Nat
  | a :: b :: c :: d :: rest =>
      (a * 16777216 + b * 65536 + c * 256 + d) :: bytesToWords rest
  | _ => []

/-- One step of the SHA-256 message-schedule extension: append
`w[i] = w[i-16] + s0(w[i-15]) + w[i-7] + s1(w[i-2])` (mod 2^32). -/
def scheduleStep (w : Array Nat) : Array Nat :=
  let i := w.size
  let x15 := w.getD (i - 15) 0
  let x2 := w.getD (i - 2) 0
  let s0 := Nat.xor (rotr32 x15 7) (Nat.xor (rotr32 x15 18) (x15 >>> 3))
  let s1 := Nat.xor (rotr32 x2 17) (Nat.xor (rotr32 x2 19) (x2 >>> 10))
  w.push (w32 (w.getD (i - 16) 0 + s0 + w.getD (i - 7) 0 + s1))

/-- Iterate `scheduleStep`. -/
def extendScheduleN : Nat → Array Nat → Array Nat
  | 0, w => w
  | k + 1, w => extendScheduleN k (scheduleStep w)

/-- SHA-256 working state. -/
structure SHAState where
  a : Nat
  b : Nat
  c : Nat
  d : Nat
  e : Nat
  f : Nat
  g : Nat
  h : Nat

/-- One SHA-256 compression round; `kw` is `k[i] + w[i]`. -/
def shaRound (s : SHAState) (kw : Nat) : SHAState :=
  let S1 := Nat.xor (rotr32 s.e 6) (Nat.xor (rotr32 s.e 11) (rotr32 s.e 25))
  let ch := Nat.xor (Nat.land s.e s.f) (Nat.land (not32 s.e) s.g)
  let temp1 := w32 (s.h + S1 + ch + kw)
  let S0 := Nat.xor (rotr32 s.a 2) (Nat.xor (rotr32 s.a 13) (rotr32 s.a 22))
  let maj := Nat.xor (Nat.land s.a s.b)
    (Nat.xor (Nat.land s.a s.c) (Nat.land s.b s.c))
  let temp2 := w32 (S0 + maj)
  ⟨w32 (temp1 + temp2), s.a, s.b, s.c, w32 (s.d + temp1), s.e, s.f, s.g⟩

/-- Compress one 64-byte block into the running hash value. -/
def sha256Compress (hs : List Nat) (block : List Nat) : List Nat :=
  let ws := (extendScheduleN 48 (bytesToWords block).toArray).toList
  let kw := (List.zip sha256K ws).map (fun p => p.1 + p.2)
  let s0 : SHAState :=
    ⟨hs.getD 0 0, hs.getD 1 0, hs.getD 2 0, hs.getD 3 0,
     hs.getD 4 0, hs.getD 5 0, hs.getD 6 0, hs.getD 7 0⟩
  let s := kw.foldl shaRound s0
  [w32 (hs.getD 0 0 + s.a), w32 (hs.getD 1 0 + s.b), w32 (hs.getD 2 0 + s.c),
   w32 (hs.getD 3 0 + s.d), w32 (hs.getD 4 0 + s.e), w32 (hs.getD 5 0 + s.f),
   w32 (hs.getD 6 0 + s.g), w32 (hs.getD 7 0 + s.h)]

/-- SHA-256 padding: `0x80`, zeros to 56 mod 64, then the 64-bit big-endian
bit length. -/
def sha256Pad (msg : List Nat) : List Nat :=
  let L := msg.length
  let zeros := (120 - (L + 1) % 64) % 64
  let bits := 8 * L
  msg ++ [128] ++ List.replicate zeros 0 ++
    (List.range 8).map (fun i => bits >>> (8 * (7 - i)) % 256)

/-- Split a byte list into 64-byte blocks (`fuel` bounds the recursion and is
at least the list length wherever this is used, so every block is produced). -/
def chunks64Go : Nat → List Nat → List (List Nat)
  | _, [] => []
  | 0, _ => []
  | fuel + 1, x :: xs => (x :: xs.take 63) :: chunks64Go fuel (xs.drop 63)

/-- Split a byte list into 64-byte blocks. -/
def chunks64 (l : List Nat) : List (List Nat) := chunks64Go l.length l

/-- SHA-256 digest (32 bytes) of a byte list. -/
def sha256 (msg : List Nat) : List Nat :=
  let hs := (chunks64 (sha256Pad msg)).foldl sha256Compress sha256Init
  hs.flatMap (fun h => [h / 16777216 % 256, h / 65536 % 256, h / 256 % 256, h % 256])

/-- HMAC-SHA256 (RFC 2104), as computed by
`hmac.new(key, msg, digestmod=hashlib.sha256).digest()`. -/
def hmacSha256 (key msg : List Nat) : List Nat :=
  let key1 := if key.length > 64 then sha256 key else key
  let key2 := key1 ++ List.replicate (64 - key1.length) 0
  let ipadKey := key2.map (fun b => Nat.xor b 54)
  let opadKey := key2.map (fun b => Nat.xor b 92)
  sha256 (opadKey ++ sha256 (ipadKey ++ msg))

/-- The Base64 alphabet (RFC 4648). -/
def b64Alphabet : List Char :=
  "ABCDEFGHIJKLMNOPQRSTUVWXYZabcdefghijklmnopqrstuvwxyz0123456789+/".data

/-- Base64 digit for a 6-bit value. -/
def b64Char (n : Nat) : Char := b64Alphabet.getD n 'A'

/-- `base64.b64encode(...).decode()`: standard Base64 with `=` padding. -/
def b64encode : List Nat → String
  | [] => ""
  | [a] => ⟨[b64Char (a / 4), b64Char (a % 4 * 16), '=', '=']⟩
  | [a, b] => ⟨[b64Char (a / 4), b64Char (a % 4 * 16 + b / 16),
                b64Char (b % 16 * 4), '=']⟩
  | a :: b :: c :: rest =>
      (⟨[b64Char (a / 4), b64Char (a % 4 * 16 + b / 16),
         b64Char (b % 16 * 4 + c / 64), b64Char (c % 64)]⟩ : String) ++
        b64encode rest

/-! ### Python dictionaries -/

/-- A Python `dict[str, str]` as an insertion-ordered association list with
unique keys. -/
abbrev Dict := List (String × String)

/-- `d[k] = v`: overwrite in place when the key is present (CPython keeps the
original insertion position), append otherwise. -/
def dictInsert (d : Dict) (k v : String) : Dict :=
  if d.any (fun p => p.1 == k) then
    d.map (fun p => if p.1 == k then (k, v) else p)
  else d ++ [(k, v)]

/-- `d.get(k)`. -/
def dictLookup (d : Dict) (k : String) : Option String :=
  (d.find? (fun p => p.1 == k)).map (fun p => p.2)

/-- `list(d.keys())`. -/
def dictKeys (d : Dict) : List String := d.map (fun p => p.1)

/-- Insert every pair of `l` into `d` in order (a `for key, value in
l.items(): d[key] = value` loop). -/
def dictInsertAll (d : Dict) (l : Dict) : Dict :=
  l.foldl (fun acc p => dictInsert acc p.1 p.2) d

/-- Lexicographic comparison of character lists by code point — the
comparison Python's `sorted` applies to `str` keys.  (On strings, code-point
order and UTF-8 byte order coincide.) -/
def lexLe : List Char → List Char → Bool
  | [], _ => true
  | _ :: _, [] => false
  | c :: cs, d :: ds =>
    if c.toNat < d.toNat then true
    else if d.toNat < c.toNat then false
    else lexLe cs ds

/-- Python `a <= b` on strings. -/
def pyStrLe (a b : String) : Bool := lexLe a.data b.data

/-! ### `urllib.parse` query-string parsing

`parse_url_parameters` (auth.py:279-318) calls `urllib.parse.parse_qs`,
which in turn percent-decodes each name and value with
`unquote(s.replace('+', ' '), encoding='utf-8', errors='replace')`.
The definitions below transcribe those stdlib algorithms. -/

/-- Split a character list at every occurrence of `sep`, keeping empty
segments — the semantics of Python `str.split` with an explicit one-character
separator. -/
def splitChar (sep : Char) : List Char → List (List Char)
  | [] => [[]]
  | c :: rest =>
    let r := splitChar sep rest
    if c == sep then [] :: r
    else (c :: r.headD []) :: r.tail

/-- Python `s.split(sep)` for a one-character separator. -/
def pySplit (s : String) (sep : Char) : List String :=
  (splitChar sep s.data).map (fun l => ⟨l⟩)

/-- `true` for an ASCII hexadecimal digit. -/
def isHexChar (c : Char) : Bool :=
  ('0' ≤ c && c ≤ '9') || ('a' ≤ c && c ≤ 'f') || ('A' ≤ c && c ≤ 'F')

/-- Value of an ASCII hexadecimal digit. -/
def hexVal (c : Char) : Nat :=
  if '0' ≤ c && c ≤ '9' then c.toNat - 48
  else if 'a' ≤ c && c ≤ 'f' then c.toNat - 87
  else if 'A' ≤ c && c ≤ 'F' then c.toNat - 55
  else 0

/-- `true` for a UTF-8 continuation byte (`0x80`-`0xBF`). -/
def isContByte (b : Nat) : Bool := 128 ≤ b && b ≤ 191

/-- The Unicode replacement character. -/
def replChar : Char := Char.ofNat 0xFFFD

/-- Admissible range for the first continuation byte of a 3- or 4-byte UTF-8
sequence headed by `b` (excludes overlong forms and surrogates). -/
def firstContOk (b c1 : Nat) : Bool :=
  if b == 224 then 160 ≤ c1 && c1 ≤ 191
  else if b == 237 then 128 ≤ c1 && c1 ≤ 159
  else if b == 240 then 144 ≤ c1 && c1 ≤ 191
  else if b == 244 then 128 ≤ c1 && c1 ≤ 143
  else isContByte c1

/-- Decode a UTF-8 byte list to characters with `errors='replace'`: each
maximal subpart of an ill-formed sequence becomes one U+FFFD, following the
policy CPython has used since 3.3.  `fuel` bounds the recursion; at least
one byte is consumed per step, so `fuel = length` decodes everything. -/
def utf8DecodeReplaceGo : Nat → List Nat → List Char
  | _, [] => []
  | 0, _ => []
  | fuel + 1, b :: rest =>
    if b < 128 then Char.ofNat b :: utf8DecodeReplaceGo fuel rest
    else if 194 ≤ b && b ≤ 223 then
      match rest with
      | c1 :: rest1 =>
        if isContByte c1 then
          Char.ofNat ((b - 192) * 64 + (c1 - 128)) ::
            utf8DecodeReplaceGo fuel rest1
        else replChar :: utf8DecodeReplaceGo fuel (c1 :: rest1)
      | [] => [replChar]
    else if 224 ≤ b && b ≤ 239 then
      match rest with
      | c1 :: c2 :: rest2 =>
        if firstContOk b c1 then
          if isContByte c2 then
            Char.ofNat ((b - 224) * 4096 + (c1 - 128) * 64 + (c2 - 128)) ::
              utf8DecodeReplaceGo fuel rest2
          else replChar :: utf8DecodeReplaceGo fuel (c2 :: rest2)
        else replChar :: utf8DecodeReplaceGo fuel (c1 :: c2 :: rest2)
      | [c1] =>
        if firstContOk b c1 then [replChar]
        else replChar :: utf8DecodeReplaceGo fuel [c1]
      | [] => [replChar]
    else if 240 ≤ b && b ≤ 244 then
      match rest with
      | c1 :: c2 :: c3 :: rest3 =>
        if firstContOk b c1 then
          if isContByte c2 then
            if isContByte c3 then
              Char.ofNat ((b - 240) * 262144 + (c1 - 128) * 4096 +
                  (c2 - 128) * 64 + (c3 - 128)) ::
                utf8DecodeReplaceGo fuel rest3
            else replChar :: utf8DecodeReplaceGo fuel (c3 :: rest3)
          else replChar :: utf8DecodeReplaceGo fuel (c2 :: c3 :: rest3)
        else replChar :: utf8DecodeReplaceGo fuel (c1 :: c2 :: c3 :: rest3)
      | [c1, c2] =>
        if firstContOk b c1 then
          if isContByte c2 then [replChar]
          else replChar :: utf8DecodeReplaceGo fuel [c2]
        else replChar :: utf8DecodeReplaceGo fuel [c1, c2]
      | [c1] =>
        if firstContOk b c1 then [replChar]
        else replChar :: utf8DecodeReplaceGo fuel [c1]
      | [] => [replChar]
    else replChar :: utf8DecodeReplaceGo fuel rest

/-- Decode a UTF-8 byte list with `errors='replace'`. -/
def utf8DecodeReplace (bs : List Nat) : List Char :=
  utf8DecodeReplaceGo bs.length bs

/-- Scanner state for `unquote`: accumulated output (reversed), plus the
pending byte buffer of the current ASCII run. -/
def unquoteFlush (buf : List Nat) : List Char := utf8DecodeReplace buf

/-- Core of `urllib.parse.unquote(..., encoding='utf-8', errors='replace')`:
within runs of ASCII characters, `%XX` with two hex digits contributes the
byte `0xXX` and every other ASCII character contributes its own byte; each
maximal such byte run is UTF-8-decoded with `errors='replace'`.  Non-ASCII
characters pass through unchanged (CPython splits them out before byte
decoding). -/
def unquoteGo : List Char → List Nat → List Char
  | [], buf => unquoteFlush buf
  | '%' :: c1 :: c2 :: rest, buf =>
    if isHexChar c1 && isHexChar c2 then
      unquoteGo rest (buf ++ [hexVal c1 * 16 + hexVal c2])
    else unquoteGo (c1 :: c2 :: rest) (buf ++ [37])
  | c :: rest, buf =>
    if c.toNat < 128 then unquoteGo rest (buf ++ [c.toNat])
    else unquoteFlush buf ++ c :: unquoteGo rest []

/-- `urllib.parse.unquote` with the default UTF-8/replace handling. -/
def pyUnquote (s : String) : String := ⟨unquoteGo s.data []⟩

/-- The unquoting `parse_qsl` applies to each name and value:
`unquote(nv.replace('+', ' '))`. -/
def unquotePlus (s : String) : String :=
  pyUnquote ⟨s.data.map (fun c => if c == '+' then ' ' else c)⟩

/-- Split at the first `=`, as `nv.split('=', 1)` does: no `=` gives `none`
for the value. -/
def splitFirstEq (s : String) : String × Option String :=
  match pySplit s '=' with
  | [] => ("", none)
  | [x] => (x, none)
  | x :: rest => (x, some (String.intercalate "=" rest))

/-- `urllib.parse.parse_qsl(qs)` with the default arguments: split the query
string on `&`; skip empty fragments, fragments without `=`, and fragments
with an empty value (`keep_blank_values=False`); percent-decode names and
values with `+` treated as space. -/
def parse_qsl (qs : String) : List (String × String) :=
  (pySplit qs '&').foldl
    (fun acc nv =>
      if nv == "" then acc
      else
        match splitFirstEq nv with
        | (_, none) => acc
        | (name, some value) =>
          if value == "" then acc
          else acc ++ [(unquotePlus name, unquotePlus value)])
    []

/-- One step of `parse_qs`'s grouping: append the value to an existing
name's list, or start a new group at the end. -/
def qsGroupStep (acc : List (String × List String)) (p : String × String) :
    List (String × List String) :=
  if acc.any (fun q => q.1 == p.1) then
    acc.map (fun q => if q.1 == p.1 then (q.1, q.2 ++ [p.2]) else q)
  else acc ++ [(p.1, [p.2])]

/-- Group the pairs of `parse_qsl` into `dict(name -> list of values)` as
`urllib.parse.parse_qs` does: first-occurrence order of names, values
appended in order. -/
def parse_qs (qs : String) : List (String × List String) :=
  (parse_qsl qs).foldl qsGroupStep []

/-! ### The `NetsuiteOAuth` signer (restsuite/auth.py)

Mutation of `self` is modelled by returning the updated record.  The
`uuid`-based nonce and the wall-clock timestamp that `generate_nonce` /
`generate_timestamp` produce are supplied as explicit arguments.  The
credential attributes are `Option String`: the constructor's `str`
annotations are unenforced in Python and `token_key` / `token_secret`
default to `None`. -/

/-- The mutable attribute record set up by `NetsuiteOAuth.__init__`
(auth.py:18-32). -/
structure NetsuiteOAuth where
  realm : String
  consumer_key : Option String
  consumer_secret : Option String
  token_key : Option String
  token_secret : Option String
  signature_method : String
  nonce : Option String
  timestamp : Option String
  request_parameters : Option String
  signature : Option String
  normalized_request_parameters : Option String
  headers : Option Dict
  base_string : Option String
  oauth_string : Option String
deriving DecidableEq

namespace NetsuiteOAuth

/-- `NetsuiteOAuth(account_id, consumer_key, consumer_secret, token_key,
token_secret)`. -/
def init (account_id : String) (consumer_key consumer_secret token_key
    token_secret : Option String) : NetsuiteOAuth :=
  { realm := account_id
    consumer_key := consumer_key
    consumer_secret := consumer_secret
    token_key := token_key
    token_secret := token_secret
    signature_method := "HMAC-SHA256"
    nonce := none
    timestamp := none
    request_parameters := none
    signature := none
    normalized_request_parameters := none
    headers := none
    base_string := none
    oauth_string := none }

/-- `NetsuiteOAuth.parse_url_parameters` (auth.py:279-318): split the URL on
`?`; the base URL is segment 0; when more than one segment exists, parse
segment 1 with `parse_qs` and keep only the first value of each name;
otherwise the parameter mapping is `None`. -/
def parse_url_parameters (url : String) : String × Option Dict :=
  let url_list := pySplit url '?'
  let base_url := url_list.headD ""
  if url_list.length > 1 then
    let params_list_form := parse_qs (url_list.getD 1 "")
    -- parse_qs returns values as lists; only the first value is retained
    (base_url, some (params_list_form.map (fun p => (p.1, p.2.headD ""))))
  else
    (base_url, none)

/-- The literal dictionary of the six OAuth protocol parameters built at
auth.py:204-211.  CPython stores the raw attribute objects and applies
`str` when the pair is formatted at auth.py:237; since every stored value is
only ever observed through that formatting, the values are pre-rendered with
`pyStr` here (the two presentations agree on every output). -/
def request_params_base (st : NetsuiteOAuth) : Dict :=
  [("oauth_consumer_key", pyStr st.consumer_key),
   ("oauth_token", pyStr st.token_key),
   ("oauth_signature_method", st.signature_method),
   ("oauth_timestamp", pyStr st.timestamp),
   ("oauth_nonce", pyStr st.nonce),
   ("oauth_version", "1.0")]

/-- The parameter dictionary after the optional query parameters are added
(auth.py:213-216).  `if query_parameters:` is false for `None` and for an
empty dict. -/
def request_params_all (st : NetsuiteOAuth) (query_parameters : Option Dict) :
    Dict :=
  match query_parameters with
  | some qp => if qp.isEmpty then st.request_params_base
               else dictInsertAll st.request_params_base qp
  | none => st.request_params_base

/-- Steps 2-3 of `normalize_request_parameters` (auth.py:226-237): iterate
the keys in sorted order, reading each value back out of the dictionary. -/
def sorted_param_pairs (st : NetsuiteOAuth) (query_parameters : Option Dict) :
    List (String × String) :=
  let rp := st.request_params_all query_parameters
  (List.insertionSort (fun a b => pyStrLe a b = true) (dictKeys rp)).map
    (fun k => (k, (dictLookup rp k).getD ""))

/-- Python `s[:-1]` for a nonempty string: drop the final character
(auth.py:239 removes the trailing ampersand). -/
def dropLastChar (s : String) : String := ⟨s.data.dropLast⟩

/-- The `name=value&...` accumulation loop of auth.py:235-239. -/
def paramStringOf (pairs : List (String × String)) : String :=
  dropLastChar (pairs.foldl (fun acc p => acc ++ p.1 ++ "=" ++ p.2 ++ "&") "")

/-- `NetsuiteOAuth.normalize_request_parameters` (auth.py:166-242): build the
parameter dict, sort by name, join as `name=value` with `&`, percent-encode
the whole string once, and store it. -/
def normalize_request_parameters (st : NetsuiteOAuth)
    (query_parameters : Option Dict) : NetsuiteOAuth :=
  let v := encode_oauth (paramStringOf (st.sorted_param_pairs query_parameters))
  { st with normalized_request_parameters := some v }

/-- `NetsuiteOAuth.generate_base_string` (auth.py:62-98): record a fresh
nonce and timestamp, split the URL, normalize the parameters, and store
`METHOD&encoded-base-url&normalized-params`. -/
def generate_base_string (st : NetsuiteOAuth) (nonce timestamp : String)
    (http_method url : String) : NetsuiteOAuth :=
  let st1 := { st with nonce := some nonce, timestamp := some timestamp }
  let p := parse_url_parameters url
  let st2 := st1.normalize_request_parameters p.2
  let bs := http_method ++ "&" ++ encode_oauth p.1 ++ "&" ++
    pyStr st2.normalized_request_parameters
  { st2 with base_string := some bs }

/-- `NetsuiteOAuth.generate_signature` (auth.py:100-136): key is
`"{}&{}".format(consumer_secret, token_secret)` (so `None` renders as the
four characters `None`), message is the stored base string; the signature is
the percent-encoded Base64 HMAC-SHA256 digest.  `str.encode(None)` raises
`TypeError`, so a missing base string raises before any mutation. -/
def generate_signature (st : NetsuiteOAuth) : NetsuiteOAuth × Except PyErr Unit :=
  match st.base_string with
  | none => (st, Except.error PyErr.typeError)
  | some text =>
    let key := pyStr st.consumer_secret ++ "&" ++ pyStr st.token_secret
    let signature := hmacSha256 (strBytes key) (strBytes text)
    let encoded_signature := b64encode signature
    ({ st with signature := some (encode_oauth encoded_signature) }, Except.ok ())

/-- The default header bundle assembled at auth.py:157-162. -/
def defaultHeaders (oauth_string : String) : Dict :=
  [("Prefer", "transient"),
   ("Content-Type", "application/json"),
   ("Authorization", oauth_string),
   ("cache-control", "no-cache")]

/-- `NetsuiteOAuth.generate_auth_header` (auth.py:138-164).  The
`oauth_string` concatenation evaluates left to right, so a `None`
`consumer_key` raises `TypeError` before a `None` `token_key` does; the
`timestamp`, `nonce` and `signature` attributes were all just set by this
call, so their formatting cannot raise.  On an exception the attributes
mutated so far keep their new values but `oauth_string` and `headers` are
not updated and no header set is returned. -/
def generate_auth_header (st : NetsuiteOAuth) (nonce timestamp : String)
    (http_method url : String) : NetsuiteOAuth × Except PyErr Dict :=
  let st1 := st.generate_base_string nonce timestamp http_method url
  match st1.generate_signature with
  | (st2, Except.error e) => (st2, Except.error e)
  | (st2, Except.ok _) =>
    match st2.consumer_key with
    | none => (st2, Except.error PyErr.typeError)
    | some ck =>
      match st2.token_key with
      | none => (st2, Except.error PyErr.typeError)
      | some tk =>
        let oauth_string :=
          "OAuth realm=\"" ++ st2.realm ++ "\"," ++
          "oauth_consumer_key=\"" ++ ck ++ "\"," ++
          "oauth_token=\"" ++ tk ++ "\"," ++
          "oauth_signature_method=\"HMAC-SHA256\"," ++
          "oauth_timestamp=\"" ++ pyStr st2.timestamp ++ "\"," ++
          "oauth_nonce=\"" ++ pyStr st2.nonce ++ "\"," ++
          "oauth_version=\"1.0\"," ++
          "oauth_signature=\"" ++ pyStr st2.signature ++ "\""
        let headers := defaultHeaders oauth_string
        ({ st2 with oauth_string := some oauth_string, headers := some headers },
         Except.ok headers)

end NetsuiteOAuth

/-! ### The `suitepy` verb wrappers (suitepy/base_rest.py)

`suitepy.Rest` holds a `NetsuiteOAuth` signer (imported as `.auth`; the
class is the one transcribed above).  Each verb wrapper generates default
headers by signing with a hard-coded method literal, then either uses them
as-is or injects only the `Authorization` entry into the caller's headers,
and finally performs the request with `requests.<verb>`.  The outbound
request is modelled as a `RestCall` value; the `isinstance` type checks
cannot fail in this typed embedding and JSON bodies are not modelled (no
claim depends on them). -/

/-- An outbound HTTP request as handed to the `requests` library. -/
structure RestCall where
  wireMethod : String
  url : String
  headers : Dict
deriving DecidableEq

/-- The `Authorization` value of a header set (always present in the sets
`generate_auth_header` returns). -/
def authorizationOf (d : Dict) : String :=
  (dictLookup d "Authorization").getD ""

/-- The shared tail of every verb wrapper (base_rest.py:47-58 etc.): sign
with `sign_method`, then merge headers and emit the request with
`wire_method`.  The `if headers:` truthiness test (lines 51/101/156/199) is
false for `None` and for an empty dict, so both fall back to the full
default header bundle; only a non-empty caller dict gets the
`Authorization` entry injected. -/
def restVerb (auth : NetsuiteOAuth) (nonce timestamp : String)
    (sign_method wire_method url : String) (headers : Option Dict) :
    NetsuiteOAuth × Except PyErr RestCall :=
  match auth.generate_auth_header nonce timestamp sign_method url with
  | (auth1, Except.error e) => (auth1, Except.error e)
  | (auth1, Except.ok default_headers) =>
    let hs := match headers with
      | some h =>
        if h.isEmpty then default_headers
        else dictInsert h "Authorization" (authorizationOf default_headers)
      | none => default_headers
    (auth1, Except.ok { wireMethod := wire_method, url := url, headers := hs })

namespace Rest

/-- `Rest.get` (suitepy/base_rest.py:16-58): signs with `"GET"`, sends GET. -/
def get (auth : NetsuiteOAuth) (nonce timestamp url : String)
    (headers : Option Dict) : NetsuiteOAuth × Except PyErr RestCall :=
  restVerb auth nonce timestamp "GET" "GET" url headers

/-- `Rest.post` (suitepy/base_rest.py:60-109): signs with `"PATCH"`
(line 98), sends POST. -/
def post (auth : NetsuiteOAuth) (nonce timestamp url : String)
    (headers : Option Dict) : NetsuiteOAuth × Except PyErr RestCall :=
  restVerb auth nonce timestamp "PATCH" "POST" url headers

/-- `Rest.put` (suitepy/base_rest.py:111-164): signs with `"PATCH"`
(line 153), sends PUT. -/
def put (auth : NetsuiteOAuth) (nonce timestamp url : String)
    (headers : Option Dict) : NetsuiteOAuth × Except PyErr RestCall :=
  restVerb auth nonce timestamp "PATCH" "PUT" url headers

/-- `Rest.delete` (suitepy/base_rest.py:166-206): signs with `"GET"`
(line 196), sends DELETE. -/
def delete (auth : NetsuiteOAuth) (nonce timestamp url : String)
    (headers : Option Dict) : NetsuiteOAuth × Except PyErr RestCall :=
  restVerb auth nonce timestamp "GET" "DELETE" url headers

end Rest

/-! ### The SuiteQL paginator (suitepy/suiteql.py)

Items are opaque record objects, modelled as `Nat`.  The HTTP transport is
modelled by a script: the list of responses the server returns to the
successive requests, in order.  `suiteql` records the URL of every request
it issues. -/

/-- One HTTP response as consumed by `QueryResponse`: the `requests`-level
classification (`ok`, `status_code`) plus the fields of the JSON body of a
successful SuiteQL page (`links` is the raw `[{rel, href}]` array).  The
error-body fields parsed for non-OK responses only feed `print_error`
diagnostics and are not modelled. -/
structure HTTPResponse where
  ok : Bool
  status_code : Nat
  links : List (String × String)
  count : Nat
  hasMore : Bool
  offset : Nat
  totalResults : Nat
  items : List Nat
deriving DecidableEq

/-- The parsed page state built by `QueryResponse.__init__`
(suiteql.py:140-161): defaults everywhere, overwritten from the JSON body
only when the response is OK and not status 204; the `links` array becomes
a dict keyed by `rel`. -/
structure QueryResponseS where
  ok : Bool
  status_code : Nat
  links : Dict
  count : Nat
  hasMore : Bool
  offset : Nat
  totalResults : Nat
  items : List Nat
deriving DecidableEq

/-- `QueryResponse(response)`. -/
def queryResponseOf (r : HTTPResponse) : QueryResponseS :=
  if r.ok && r.status_code != 204 then
    { ok := r.ok
      status_code := r.status_code
      links := dictInsertAll [] r.links
      count := r.count
      hasMore := r.hasMore
      offset := r.offset
      totalResults := r.totalResults
      items := r.items }
  else
    { ok := r.ok
      status_code := r.status_code
      links := []
      count := 0
      hasMore := false
      offset := 0
      totalResults := 0
      items := [] }

/-- How a `suiteql` call ends. -/
inductive SuiteOutcome where
  /-- `return self.response_body` (suiteql.py:87). -/
  | retBody
  /-- `return {}` on a non-OK page (suiteql.py:85). -/
  | retEmptyDict
  /-- `response.links['next']` raised `KeyError` (suiteql.py:79). -/
  | keyError
  /-- the response script was exhausted while another request was due
  (not reachable in any modelled scenario: a real transport always
  responds). -/
  | exhausted
deriving DecidableEq

/-- The `while moreQueries` loop of `NetSuiteQL.suiteql` (suiteql.py:64-87),
driven by the remaining response script.  Returns the requested URLs in
order, the final `self.response_body`, and the outcome. -/
def suiteqlLoop : List HTTPResponse → String → List Nat →
    List String × List Nat × SuiteOutcome
  | [], _, body => ([], body, SuiteOutcome.exhausted)
  | r :: rest, next_url, body =>
    let response := queryResponseOf r
    if response.ok then
      if response.hasMore then
        match dictLookup response.links "next" with
        | none => ([next_url], body, SuiteOutcome.keyError)
        | some nu =>
          let out := suiteqlLoop rest nu (body ++ response.items)
          (next_url :: out.1, out.2.1, out.2.2)
      else ([next_url], body ++ response.items, SuiteOutcome.retBody)
    else ([next_url], body, SuiteOutcome.retEmptyDict)

/-- The paginator state set up by `NetSuiteQL.__init__` (suiteql.py:13-19).
The embedded signer is not represented: the signing of each POST has no
bearing on the pagination behaviour the claims concern. -/
structure NetSuiteQL where
  url : String
  items : List Nat
  response_body : List Nat
deriving DecidableEq

/-- `NetSuiteQL(account_id, ...)`. -/
def NetSuiteQL.init (account_id : String) : NetSuiteQL :=
  { url := "https://" ++ account_id ++
      ".suitetalk.api.netsuite.com/services/rest/query/v1/suiteql"
    items := []
    response_body := [] }

/-- `NetSuiteQL.suiteql(query_string)` against a response script: the first
request targets `self.url`; `self.response_body` persists on the instance.
When the outcome is `retBody` the returned value is the new
`response_body`; when it is `retEmptyDict` the returned value is `{}`. -/
def NetSuiteQL.suiteql (st : NetSuiteQL) (script : List HTTPResponse) :
    List String × NetSuiteQL × SuiteOutcome :=
  let out := suiteqlLoop script st.url st.response_body
  (out.1, { st with response_body := out.2.1 }, out.2.2)

/-! ### Abbreviations and concrete inputs used by the theorems below -/

/-- The `next` link a page's parsed `links` dict supplies (used when
`hasMore` is true and the link is present). -/
def nextOf (r : HTTPResponse) : String :=
  (dictLookup (queryResponseOf r).links "next").getD ""

/-- The items a page contributes to the accumulator. -/
def itemsOf (r : HTTPResponse) : List Nat := (queryResponseOf r).items

/-- A page that keeps the pagination loop running: OK, `hasMore`, and a
`next` link present. -/
def goodPage (r : HTTPResponse) : Prop :=
  r.ok = true ∧ (queryResponseOf r).hasMore = true ∧
    (dictLookup (queryResponseOf r).links "next").isSome = true

/-- Retain only the first value of each name, as parse_url_parameters does
with the lists `parse_qs` returns. -/
def firstVals (l : List (String × List String)) : Dict :=
  l.map (fun p => (p.1, p.2.headD ""))

/-- Written from the spec's words for claim C6 (not from the code): split
the URL at the FIRST `?` only, so the raw query string is the whole
remainder of the URL. -/
def specSplitAtFirstQ (url : String) : String × Option Dict :=
  let base := url.data.takeWhile (fun c => c != '?')
  match url.data.dropWhile (fun c => c != '?') with
  | [] => (⟨base⟩, none)
  | _ :: qs => (⟨base⟩, some (firstVals (parse_qs ⟨qs⟩)))

/-- The six OAuth protocol parameter names of auth.py:204-211. -/
def oauthParamNames : List String :=
  ["oauth_consumer_key", "oauth_token", "oauth_signature_method",
   "oauth_timestamp", "oauth_nonce", "oauth_version"]

/-- A concrete signer with every credential present (witnesses). -/
def wAuth : NetsuiteOAuth :=
  NetsuiteOAuth.init "ACCT" (some "CK") (some "CS") (some "TK") (some "TS")

/-- A concrete signer with `token_secret` absent (claim C8). -/
def wAuthNoTokenSecret : NetsuiteOAuth :=
  NetsuiteOAuth.init "ACCT" (some "CK") (some "CS") (some "TK") none

/-- A concrete signer with `token_key` absent (claim C8 witness). -/
def wAuthNoTokenKey : NetsuiteOAuth :=
  NetsuiteOAuth.init "ACCT" (some "CK") (some "CS") none (some "TS")

/-- A concrete signer state with a stored base string (claim C5 witness). -/
def wAuthWithBase : NetsuiteOAuth :=
  { wAuth with base_string := some "BASE" }

/-- A concrete OK page with `hasMore = true` and a `next` link. -/
def wPage1 : HTTPResponse :=
  { ok := true, status_code := 200, links := [("next", "https://n2.test")],
    count := 2, hasMore := true, offset := 0, totalResults := 5,
    items := [1, 2] }

/-- A second OK page with `hasMore = true` and a `next` link. -/
def wPage2 : HTTPResponse :=
  { ok := true, status_code := 200, links := [("next", "https://n3.test")],
    count := 2, hasMore := true, offset := 2, totalResults := 5,
    items := [3, 4] }

/-- A final OK page with `hasMore = false`. -/
def wPage3 : HTTPResponse :=
  { ok := true, status_code := 200, links := [("self", "https://n3.test")],
    count := 1, hasMore := false, offset := 4, totalResults := 5,
    items := [5] }

/-- A non-OK page. -/
def wPageBad : HTTPResponse :=
  { ok := false, status_code := 400, links := [], count := 0,
    hasMore := false, offset := 0, totalResults := 0, items := [] }

/-- Validation of the SHA-256 transcription against the FIPS 180-4
known-answer vector for `"abc"`. -/
theorem sha256_abc_vector :
    sha256 (strBytes "abc") =
      [0xba, 0x78, 0x16, 0xbf, 0x8f, 0x01, 0xcf, 0xea,
       0x41, 0x41, 0x40, 0xde, 0x5d, 0xae, 0x22, 0x23,
       0xb0, 0x03, 0x61, 0xa3, 0x96, 0x17, 0x7a, 0x9c,
       0xb4, 0x10, 0xff, 0x61, 0xf2, 0x00, 0x15, 0xad] := by decide

/-- Validation of the HMAC-SHA256 transcription against the RFC 4231 test
case 2 vector (key `"Jefe"`). -/
theorem hmac_jefe_vector :
    b64encode (hmacSha256 (strBytes "Jefe")
      (strBytes "what do ya want for nothing?")) =
      "W9zBRr9gdU5qBCQmCJV1x1oAPwidJzmDnexYuWTsOEM=" := by decide


/-! ## Claim theorems -/

/-- C1 (code bug): `encode_oauth` delegates to `quote_plus`, which encodes
the space character as `+`, not `%20` — contradicting both the claim and the
function's own docstring ("A blank symbol is encoded as %20 and not as the
plus (+) symbol").  Unreserved characters do pass through unchanged. -/
theorem claim_C1_space_encoded_as_plus :
    NetsuiteOAuth.encode_oauth " " = "+" ∧
    NetsuiteOAuth.encode_oauth "a b" = "a+b" ∧
    NetsuiteOAuth.encode_oauth "abc-._~123" = "abc-._~123" ∧
    NetsuiteOAuth.encode_oauth " " ≠ "%20" ∧
    NetsuiteOAuth.encode_oauth "a b" ≠ "a%20b" := by
  refine ⟨by decide, by decide, by decide, by decide, by decide⟩

/-- C9: `generate_auth_header` regenerates this call's nonce and timestamp
but leaves every credential field (`realm`, consumer key/secret, token
key/secret), the signature method, and the never-written
`request_parameters` attribute unchanged; the only attributes it writes are
this call's own signing context (`nonce`, `timestamp`,
`normalized_request_parameters`, `base_string`, `signature`) and the
produced header (`oauth_string`, `headers`). -/
theorem claim_C9_no_shared_state_mutated (st : NetsuiteOAuth)
    (nonce timestamp m url : String) :
    ((st.generate_auth_header nonce timestamp m url).1.realm = st.realm) ∧
    ((st.generate_auth_header nonce timestamp m url).1.consumer_key = st.consumer_key) ∧
    ((st.generate_auth_header nonce timestamp m url).1.consumer_secret = st.consumer_secret) ∧
    ((st.generate_auth_header nonce timestamp m url).1.token_key = st.token_key) ∧
    ((st.generate_auth_header nonce timestamp m url).1.token_secret = st.token_secret) ∧
    ((st.generate_auth_header nonce timestamp m url).1.signature_method = st.signature_method) ∧
    ((st.generate_auth_header nonce timestamp m url).1.request_parameters = st.request_parameters) ∧
    ((st.generate_auth_header nonce timestamp m url).1.nonce = some nonce) ∧
    ((st.generate_auth_header nonce timestamp m url).1.timestamp = some timestamp) := by
  cases hck : st.consumer_key <;> cases htk : st.token_key <;>
    simp [NetsuiteOAuth.generate_auth_header, NetsuiteOAuth.generate_base_string,
      NetsuiteOAuth.normalize_request_parameters, NetsuiteOAuth.generate_signature,
      hck, htk]

/-- C5: `generate_signature` deterministically computes the signature as the
percent-encoding of the Base64 encoding of the raw
HMAC-SHA256(`<consumer secret>&<token secret>` as UTF-8, base string as
UTF-8) digest, and re-deriving from the same inputs reproduces the same
output. -/
theorem claim_C5_signature_pipeline (st : NetsuiteOAuth) (cs tks bs : String)
    (hcs : st.consumer_secret = some cs) (htks : st.token_secret = some tks)
    (hbs : st.base_string = some bs) :
    (st.generate_signature.1.signature =
      some (NetsuiteOAuth.encode_oauth (b64encode
        (hmacSha256 (strBytes (cs ++ "&" ++ tks)) (strBytes bs))))) ∧
    (∀ st2 : NetsuiteOAuth, st2.consumer_secret = some cs →
      st2.token_secret = some tks → st2.base_string = some bs →
      st2.generate_signature.1.signature = st.generate_signature.1.signature) := by
  constructor
  · simp [NetsuiteOAuth.generate_signature, hbs, hcs, htks, pyStr]
  · intro st2 h1 h2 h3
    simp [NetsuiteOAuth.generate_signature, hbs, hcs, htks, h1, h2, h3, pyStr]

/-- Witness for C5 at a concrete signer state. -/
theorem claim_C5_witness :
    (wAuthWithBase.generate_signature.1.signature =
      some (NetsuiteOAuth.encode_oauth (b64encode
        (hmacSha256 (strBytes ("CS" ++ "&" ++ "TS")) (strBytes "BASE"))))) ∧
    (∀ st2 : NetsuiteOAuth, st2.consumer_secret = some "CS" →
      st2.token_secret = some "TS" → st2.base_string = some "BASE" →
      st2.generate_signature.1.signature =
        wAuthWithBase.generate_signature.1.signature) :=
  claim_C5_signature_pipeline wAuthWithBase "CS" "TS" "BASE" rfl rfl rfl

/-- C8 counterexample: a signer whose `token_secret` is absent does NOT fail
— `generate_auth_header` succeeds and returns a header set, because the
missing secret is only ever formatted (as the literal `None`) into the HMAC
key, contradicting the claim that any absent credential fails the call. -/
theorem claim_C8_counterexample :
    (wAuthNoTokenSecret.generate_auth_header "N" "T" "GET"
      "https://x.test/a").2.isOk = true := by rfl

/-- C8 (amended): `generate_auth_header` raises `TypeError` exactly when the
consumer key or the token key is absent (the failure surfaces during header
assembly, after the signature has been computed); an absent consumer secret
or token secret is silently rendered as `None` inside the HMAC key and the
call succeeds.  On failure no header set is produced: the `headers` and
`oauth_string` attributes are not updated. -/
theorem claim_C8_missing_credentials (st : NetsuiteOAuth)
    (nonce timestamp m url : String) :
    (((st.generate_auth_header nonce timestamp m url).2.isOk = true) ↔
      (st.consumer_key.isSome = true ∧ st.token_key.isSome = true)) ∧
    (∀ e, (st.generate_auth_header nonce timestamp m url).2 = Except.error e →
      e = PyErr.typeError ∧
      (st.generate_auth_header nonce timestamp m url).1.headers = st.headers ∧
      (st.generate_auth_header nonce timestamp m url).1.oauth_string =
        st.oauth_string) := by
  cases hck : st.consumer_key <;> cases htk : st.token_key <;>
    simp [NetsuiteOAuth.generate_auth_header, NetsuiteOAuth.generate_base_string,
      NetsuiteOAuth.normalize_request_parameters, NetsuiteOAuth.generate_signature,
      hck, htk, Except.isOk, Except.toBool]

/-- Witness for C8 at a concrete signer with `token_key` absent. -/
theorem claim_C8_witness :
    (PyErr.typeError = PyErr.typeError ∧
      (wAuthNoTokenKey.generate_auth_header "N" "T" "GET"
        "https://x.test/a").1.headers = wAuthNoTokenKey.headers ∧
      (wAuthNoTokenKey.generate_auth_header "N" "T" "GET"
        "https://x.test/a").1.oauth_string = wAuthNoTokenKey.oauth_string) :=
  (claim_C8_missing_credentials wAuthNoTokenKey "N" "T" "GET"
      "https://x.test/a").2 PyErr.typeError rfl

/-- Helper: the base string written by `generate_base_string` starts with the
signing method, and the remainder is independent of that method. -/
theorem generate_base_string_shape (st : NetsuiteOAuth) (n ts u : String) :
    ∃ x y, ∀ m, (st.generate_base_string n ts m u).base_string =
      some (m ++ "&" ++ x ++ "&" ++ y) := by
  refine ⟨_, _, fun m => rfl⟩

/-- Helper: `generate_auth_header` never rewrites the base string recorded by
`generate_base_string`. -/
theorem generate_auth_header_fst_base_string (st : NetsuiteOAuth)
    (n ts m u : String) :
    (st.generate_auth_header n ts m u).1.base_string =
      (st.generate_base_string n ts m u).base_string := by
  cases hck : st.consumer_key <;> cases htk : st.token_key <;>
    simp [NetsuiteOAuth.generate_auth_header, NetsuiteOAuth.generate_base_string,
      NetsuiteOAuth.normalize_request_parameters, NetsuiteOAuth.generate_signature,
      hck, htk]

/-- Helper: base strings for distinct methods differ (`PATCH` vs `PUT`). -/
theorem patchChain_ne_putChain (x y z w : String) :
    ("PATCH" ++ "&" ++ x ++ "&" ++ y) ≠ ("PUT" ++ "&" ++ z ++ "&" ++ w) := by
  intro h
  have hd := congrArg String.data h
  simp only [String.data_append] at hd
  simp at hd

/-- Helper: base strings for distinct methods differ (`GET` vs `DELETE`). -/
theorem getChain_ne_deleteChain (x y z w : String) :
    ("GET" ++ "&" ++ x ++ "&" ++ y) ≠ ("DELETE" ++ "&" ++ z ++ "&" ++ w) := by
  intro h
  have hd := congrArg String.data h
  simp only [String.data_append] at hd
  simp at hd

/-- Helper: each verb wrapper's outbound request with non-empty caller
headers (a truthy dict in Python), as a function of the signing result for
its hard-coded signing method. -/
theorem restVerb_spec (auth : NetsuiteOAuth) (n ts sm wm u : String)
    (h : Dict) (hne : h.isEmpty = false) :
    (restVerb auth n ts sm wm u (some h)).2 =
      (auth.generate_auth_header n ts sm u).2.map (fun dh =>
        { wireMethod := wm, url := u,
          headers := dictInsert h "Authorization" (authorizationOf dh) }) := by
  rcases hg : auth.generate_auth_header n ts sm u with ⟨a1, r⟩
  cases r <;> simp [restVerb, hg, Except.map, hne]

/-- C3 (code bug): with non-empty caller-supplied headers (an empty dict is
falsy in Python, so `if headers:` then sends the full default bundle
instead) every wrapper does return exactly the caller's headers plus an
injected, freshly generated `Authorization` — but `put` generates it by
signing `"PATCH"`, `post` by signing `"PATCH"`, and `delete` by signing
`"GET"`, while sending PUT/POST/DELETE on the wire, so the Authorization is
NOT generated for the method that is sent.  The last two conjuncts show the
signing context `put` (resp. `delete`) uses differs from the one a
PUT-signed (resp. DELETE-signed) call would use. -/
theorem claim_C3_wrapper_sign_methods (auth : NetsuiteOAuth)
    (n ts url : String) (h : Dict) (hne : h.isEmpty = false) :
    ((Rest.put auth n ts url (some h)).2 =
      (auth.generate_auth_header n ts "PATCH" url).2.map (fun dh =>
        { wireMethod := "PUT", url := url,
          headers := dictInsert h "Authorization" (authorizationOf dh) })) ∧
    ((Rest.post auth n ts url (some h)).2 =
      (auth.generate_auth_header n ts "PATCH" url).2.map (fun dh =>
        { wireMethod := "POST", url := url,
          headers := dictInsert h "Authorization" (authorizationOf dh) })) ∧
    ((Rest.delete auth n ts url (some h)).2 =
      (auth.generate_auth_header n ts "GET" url).2.map (fun dh =>
        { wireMethod := "DELETE", url := url,
          headers := dictInsert h "Authorization" (authorizationOf dh) })) ∧
    ((Rest.get auth n ts url (some h)).2 =
      (auth.generate_auth_header n ts "GET" url).2.map (fun dh =>
        { wireMethod := "GET", url := url,
          headers := dictInsert h "Authorization" (authorizationOf dh) })) ∧
    ((Rest.put auth n ts url (some h)).1.base_string ≠
      (auth.generate_auth_header n ts "PUT" url).1.base_string) ∧
    ((Rest.delete auth n ts url (some h)).1.base_string ≠
      (auth.generate_auth_header n ts "DELETE" url).1.base_string) := by
  obtain ⟨x, y, hxy⟩ := generate_base_string_shape auth n ts url
  have hput : (Rest.put auth n ts url (some h)).1 =
      (auth.generate_auth_header n ts "PATCH" url).1 := by
    rcases hg : auth.generate_auth_header n ts "PATCH" url with ⟨a1, r⟩
    cases r <;> simp [Rest.put, restVerb, hg]
  have hdel : (Rest.delete auth n ts url (some h)).1 =
      (auth.generate_auth_header n ts "GET" url).1 := by
    rcases hg : auth.generate_auth_header n ts "GET" url with ⟨a1, r⟩
    cases r <;> simp [Rest.delete, restVerb, hg]
  refine ⟨restVerb_spec auth n ts "PATCH" "PUT" url h hne,
    restVerb_spec auth n ts "PATCH" "POST" url h hne,
    restVerb_spec auth n ts "GET" "DELETE" url h hne,
    restVerb_spec auth n ts "GET" "GET" url h hne, ?_, ?_⟩
  · rw [hput, generate_auth_header_fst_base_string,
      generate_auth_header_fst_base_string, hxy "PATCH", hxy "PUT"]
    intro hcon
    exact patchChain_ne_putChain x y x y (Option.some.inj hcon)
  · rw [hdel, generate_auth_header_fst_base_string,
      generate_auth_header_fst_base_string, hxy "GET", hxy "DELETE"]
    intro hcon
    exact getChain_ne_deleteChain x y x y (Option.some.inj hcon)

/-- Witness for C3 at a concrete signer and a concrete non-empty caller
header set. -/
theorem claim_C3_witness :
    ((Rest.put wAuth "N" "T" "https://x.test/a"
        (some [("X-Custom", "1")])).2 =
      (wAuth.generate_auth_header "N" "T" "PATCH" "https://x.test/a").2.map
        (fun dh =>
          { wireMethod := "PUT", url := "https://x.test/a",
            headers := dictInsert [("X-Custom", "1")] "Authorization"
              (authorizationOf dh) })) ∧
    ((Rest.post wAuth "N" "T" "https://x.test/a"
        (some [("X-Custom", "1")])).2 =
      (wAuth.generate_auth_header "N" "T" "PATCH" "https://x.test/a").2.map
        (fun dh =>
          { wireMethod := "POST", url := "https://x.test/a",
            headers := dictInsert [("X-Custom", "1")] "Authorization"
              (authorizationOf dh) })) ∧
    ((Rest.delete wAuth "N" "T" "https://x.test/a"
        (some [("X-Custom", "1")])).2 =
      (wAuth.generate_auth_header "N" "T" "GET" "https://x.test/a").2.map
        (fun dh =>
          { wireMethod := "DELETE", url := "https://x.test/a",
            headers := dictInsert [("X-Custom", "1")] "Authorization"
              (authorizationOf dh) })) ∧
    ((Rest.get wAuth "N" "T" "https://x.test/a"
        (some [("X-Custom", "1")])).2 =
      (wAuth.generate_auth_header "N" "T" "GET" "https://x.test/a").2.map
        (fun dh =>
          { wireMethod := "GET", url := "https://x.test/a",
            headers := dictInsert [("X-Custom", "1")] "Authorization"
              (authorizationOf dh) })) ∧
    ((Rest.put wAuth "N" "T" "https://x.test/a"
        (some [("X-Custom", "1")])).1.base_string ≠
      (wAuth.generate_auth_header "N" "T" "PUT" "https://x.test/a").1.base_string) ∧
    ((Rest.delete wAuth "N" "T" "https://x.test/a"
        (some [("X-Custom", "1")])).1.base_string ≠
      (wAuth.generate_auth_header "N" "T" "DELETE"
        "https://x.test/a").1.base_string) :=
  claim_C3_wrapper_sign_methods wAuth "N" "T" "https://x.test/a"
    [("X-Custom", "1")] rfl

/-- Helper: parsing never changes the `ok` flag. -/
theorem queryResponseOf_ok (r : HTTPResponse) : (queryResponseOf r).ok = r.ok := by
  unfold queryResponseOf
  split <;> rfl

/-- Helper: a full successful run.  With `pre` pages that are OK, have
`hasMore = true` and carry a `next` link, followed by an OK page with
`hasMore = false`, the loop requests the start URL and then each page's
`next` URL, accumulates every page's items in order, returns the
accumulated body, and never touches the remainder of the script. -/
theorem suiteqlLoop_run (last : HTTPResponse) (rest : List HTTPResponse)
    (pre : List HTTPResponse) :
    ∀ (u : String) (body : List Nat), (∀ p ∈ pre, goodPage p) →
    last.ok = true → (queryResponseOf last).hasMore = false →
    suiteqlLoop (pre ++ last :: rest) u body =
      (u :: pre.map nextOf, (body ++ (pre.map itemsOf).flatten) ++ itemsOf last,
        SuiteOutcome.retBody) := by
  induction pre with
  | nil =>
    intro u body _ hok hlast
    simp [suiteqlLoop, queryResponseOf_ok, hok, hlast, itemsOf]
  | cons p ps ih =>
    intro u body hpre hok hlast
    obtain ⟨hpok, hpmore, hpnext⟩ := hpre p (List.mem_cons_self p ps)
    obtain ⟨nu, hnu⟩ := Option.isSome_iff_exists.mp hpnext
    have ihs := ih nu (body ++ itemsOf p)
      (fun q hq => hpre q (List.mem_cons_of_mem p hq)) hok hlast
    simp only [List.cons_append, suiteqlLoop, queryResponseOf_ok, hpok, hpmore,
      hnu, if_true, itemsOf, List.append_eq] at ihs ⊢
    rw [ihs]
    simp [nextOf, hnu, List.append_assoc, itemsOf]

/-- Helper: an aborted run.  With `pre` pages as above followed by a non-OK
page, the loop requests `pre.length + 1` URLs, returns the empty dict, and
never touches the remainder of the script; the instance accumulator keeps
the items of the OK pages. -/
theorem suiteqlLoop_abort (bad : HTTPResponse) (rest : List HTTPResponse)
    (pre : List HTTPResponse) :
    ∀ (u : String) (body : List Nat), (∀ p ∈ pre, goodPage p) →
    bad.ok = false →
    suiteqlLoop (pre ++ bad :: rest) u body =
      (u :: pre.map nextOf, body ++ (pre.map itemsOf).flatten,
        SuiteOutcome.retEmptyDict) := by
  induction pre with
  | nil =>
    intro u body _ hbad
    simp [suiteqlLoop, queryResponseOf_ok, hbad]
  | cons p ps ih =>
    intro u body hpre hbad
    obtain ⟨hpok, hpmore, hpnext⟩ := hpre p (List.mem_cons_self p ps)
    obtain ⟨nu, hnu⟩ := Option.isSome_iff_exists.mp hpnext
    have ihs := ih nu (body ++ itemsOf p)
      (fun q hq => hpre q (List.mem_cons_of_mem p hq)) hbad
    simp only [List.cons_append, suiteqlLoop, queryResponseOf_ok, hpok, hpmore,
      hnu, if_true, itemsOf, List.append_eq] at ihs ⊢
    rw [ihs]
    simp [nextOf, hnu, List.append_assoc, itemsOf]

/-- Helper: whatever the script, the loop only ever appends to the
accumulated body — it never resets it. -/
theorem suiteqlLoop_body_extends (script : List HTTPResponse) :
    ∀ (u : String) (body : List Nat),
    ∃ t, (suiteqlLoop script u body).2.1 = body ++ t := by
  induction script with
  | nil => intro u body; exact ⟨[], by simp [suiteqlLoop]⟩
  | cons r rest ih =>
    intro u body
    by_cases hok : (queryResponseOf r).ok = true
    · by_cases hmore : (queryResponseOf r).hasMore = true
      · cases hnu : dictLookup (queryResponseOf r).links "next" with
        | none => exact ⟨[], by simp [suiteqlLoop, hok, hmore, hnu]⟩
        | some nu =>
          obtain ⟨t, ht⟩ := ih nu (body ++ (queryResponseOf r).items)
          refine ⟨(queryResponseOf r).items ++ t, ?_⟩
          simp [suiteqlLoop, hok, hmore, hnu, ht, List.append_assoc]
      · exact ⟨(queryResponseOf r).items, by simp [suiteqlLoop, hok, hmore]⟩
    · exact ⟨[], by simp [suiteqlLoop, hok]⟩

/-- C2: when a page of the run is not OK, `suiteql` issues no further
request (exactly one request per preceding OK page plus the failed one),
raises nothing, and returns the empty dict `{}` — discarding the items the
earlier OK pages of the run had accumulated. -/
theorem claim_C2_abort_returns_empty (acct : String) (pre : List HTTPResponse)
    (bad : HTTPResponse) (rest : List HTTPResponse)
    (hpre : ∀ p ∈ pre, goodPage p) (hbad : bad.ok = false) :
    ((NetSuiteQL.init acct).suiteql (pre ++ bad :: rest)).1.length =
      pre.length + 1 ∧
    ((NetSuiteQL.init acct).suiteql (pre ++ bad :: rest)).2.2 =
      SuiteOutcome.retEmptyDict := by
  have h := suiteqlLoop_abort bad rest pre (NetSuiteQL.init acct).url
    (NetSuiteQL.init acct).response_body hpre hbad
  constructor
  · simp [NetSuiteQL.suiteql, h]
  · simp [NetSuiteQL.suiteql, h]

/-- Witness for C2: page 1 OK with `hasMore = true`, page 2 not OK — two
requests are issued (no third), and the empty dict is returned. -/
theorem claim_C2_witness :
    ((NetSuiteQL.init "A").suiteql [wPage1, wPageBad, wPage3]).1.length =
      1 + 1 ∧
    ((NetSuiteQL.init "A").suiteql [wPage1, wPageBad, wPage3]).2.2 =
      SuiteOutcome.retEmptyDict :=
  claim_C2_abort_returns_empty "A" [wPage1] wPageBad [wPage3]
    (by intro p hp; simp at hp; subst hp; refine ⟨rfl, rfl, rfl⟩) rfl

/-- C7: when every page is OK, the first request targets the constructed
base query URL, each later request targets the previous page's `next` link,
the loop stops at the first `hasMore = false` page (requests = pages
consumed), and the returned body is the concatenation of all pages' items
in fetch order. -/
theorem claim_C7_all_ok_run (acct : String) (pre : List HTTPResponse)
    (last : HTTPResponse) (rest : List HTTPResponse)
    (hpre : ∀ p ∈ pre, goodPage p) (hok : last.ok = true)
    (hlast : (queryResponseOf last).hasMore = false) :
    ((NetSuiteQL.init acct).suiteql (pre ++ last :: rest)).1 =
      (NetSuiteQL.init acct).url :: pre.map nextOf ∧
    ((NetSuiteQL.init acct).suiteql (pre ++ last :: rest)).1.length =
      pre.length + 1 ∧
    ((NetSuiteQL.init acct).suiteql (pre ++ last :: rest)).2.2 =
      SuiteOutcome.retBody ∧
    ((NetSuiteQL.init acct).suiteql (pre ++ last :: rest)).2.1.response_body =
      (pre.map itemsOf).flatten ++ itemsOf last := by
  have h := suiteqlLoop_run last rest pre (NetSuiteQL.init acct).url
    (NetSuiteQL.init acct).response_body hpre hok hlast
  have hrb : (NetSuiteQL.init acct).response_body = [] := rfl
  rw [hrb] at h
  refine ⟨by simp [NetSuiteQL.suiteql, h, hrb], by simp [NetSuiteQL.suiteql, h, hrb],
    by simp [NetSuiteQL.suiteql, h, hrb], ?_⟩
  simp [NetSuiteQL.suiteql, h, hrb]

/-- Witness for C7: three pages, the first two with `hasMore = true`, the
third final — exactly three requests, items concatenated in order. -/
theorem claim_C7_witness :
    ((NetSuiteQL.init "A").suiteql [wPage1, wPage2, wPage3]).1 =
      (NetSuiteQL.init "A").url :: [wPage1, wPage2].map nextOf ∧
    ((NetSuiteQL.init "A").suiteql [wPage1, wPage2, wPage3]).1.length =
      2 + 1 ∧
    ((NetSuiteQL.init "A").suiteql [wPage1, wPage2, wPage3]).2.2 =
      SuiteOutcome.retBody ∧
    ((NetSuiteQL.init "A").suiteql [wPage1, wPage2, wPage3]).2.1.response_body =
      ([wPage1, wPage2].map itemsOf).flatten ++ itemsOf wPage3 :=
  claim_C7_all_ok_run "A" [wPage1, wPage2] wPage3 []
    (by intro p hp; simp at hp
        rcases hp with h1 | h2
        · subst h1; refine ⟨rfl, rfl, rfl⟩
        · subst h2; refine ⟨rfl, rfl, rfl⟩) rfl rfl

/-- C10: `response_body` is initialised once at construction and only ever
extended by `suiteql` (never reset), so a second all-OK call on the same
instance returns the first call's items followed by the second call's
items. -/
theorem claim_C10_accumulator_persists (acct : String)
    (pre1 : List HTTPResponse) (last1 : HTTPResponse)
    (pre2 : List HTTPResponse) (last2 : HTTPResponse)
    (hpre1 : ∀ p ∈ pre1, goodPage p) (hok1 : last1.ok = true)
    (hlast1 : (queryResponseOf last1).hasMore = false)
    (hpre2 : ∀ p ∈ pre2, goodPage p) (hok2 : last2.ok = true)
    (hlast2 : (queryResponseOf last2).hasMore = false) :
    (∀ (st : NetSuiteQL) (script : List HTTPResponse),
      ∃ t, (st.suiteql script).2.1.response_body = st.response_body ++ t) ∧
    (NetSuiteQL.init acct).response_body = [] ∧
    ((((NetSuiteQL.init acct).suiteql (pre1 ++ [last1])).2.1.suiteql
        (pre2 ++ [last2])).2.2 = SuiteOutcome.retBody ∧
      (((NetSuiteQL.init acct).suiteql (pre1 ++ [last1])).2.1.suiteql
          (pre2 ++ [last2])).2.1.response_body =
        ((pre1.map itemsOf).flatten ++ itemsOf last1) ++
          ((pre2.map itemsOf).flatten ++ itemsOf last2)) := by
  refine ⟨?_, rfl, ?_⟩
  · intro st script
    obtain ⟨t, ht⟩ := suiteqlLoop_body_extends script st.url st.response_body
    exact ⟨t, by simp [NetSuiteQL.suiteql, ht]⟩
  · have h1 := suiteqlLoop_run last1 [] pre1 (NetSuiteQL.init acct).url
      (NetSuiteQL.init acct).response_body hpre1 hok1 hlast1
    have hrb : (NetSuiteQL.init acct).response_body = [] := rfl
    rw [hrb] at h1
    have h2 := suiteqlLoop_run last2 [] pre2 (NetSuiteQL.init acct).url
      ((pre1.map itemsOf).flatten ++ itemsOf last1) hpre2 hok2 hlast2
    constructor
    · simp [NetSuiteQL.suiteql, hrb, h1, h2]
    · simp [NetSuiteQL.suiteql, hrb, h1, h2, List.append_assoc]

/-- Witness for C10: two consecutive all-OK runs on one instance. -/
theorem claim_C10_witness :
    (∀ (st : NetSuiteQL) (script : List HTTPResponse),
      ∃ t, (st.suiteql script).2.1.response_body = st.response_body ++ t) ∧
    (NetSuiteQL.init "A").response_body = [] ∧
    ((((NetSuiteQL.init "A").suiteql ([wPage1] ++ [wPage3])).2.1.suiteql
        ([] ++ [wPage3])).2.2 = SuiteOutcome.retBody ∧
      (((NetSuiteQL.init "A").suiteql ([wPage1] ++ [wPage3])).2.1.suiteql
          ([] ++ [wPage3])).2.1.response_body =
        (([wPage1].map itemsOf).flatten ++ itemsOf wPage3) ++
          (([].map itemsOf).flatten ++ itemsOf wPage3)) :=
  claim_C10_accumulator_persists "A" [wPage1] wPage3 [] wPage3
    (by intro p hp; simp at hp; subst hp; refine ⟨rfl, rfl, rfl⟩) rfl rfl
    (by intro p hp; simp at hp) rfl rfl

/-! ### Claim C6: URL splitting -/

/-- Helper: `splitChar` always yields at least one segment. -/
theorem splitChar_ne_nil (sep : Char) (l : List Char) :
    splitChar sep l ≠ [] := by
  cases l with
  | nil => simp [splitChar]
  | cons c rest => simp only [splitChar]; split <;> simp

/-- Helper: `splitChar` at a separator character. -/
theorem splitChar_cons_pos (sep c : Char) (rest : List Char)
    (h : (c == sep) = true) :
    splitChar sep (c :: rest) = [] :: splitChar sep rest := by
  simp [splitChar, h]

/-- Helper: `splitChar` at a non-separator character. -/
theorem splitChar_cons_neg (sep c : Char) (rest : List Char)
    (h : (c == sep) = false) :
    splitChar sep (c :: rest) =
      (c :: (splitChar sep rest).headD []) :: (splitChar sep rest).tail := by
  simp [splitChar, h]

/-- Helper: the first segment is the longest `sep`-free prefix. -/
theorem splitChar_headD (sep : Char) (l : List Char) :
    (splitChar sep l).headD [] = l.takeWhile (fun c => c != sep) := by
  induction l with
  | nil => rfl
  | cons c rest ih =>
    by_cases h : (c == sep) = true
    · have hb : (c != sep) = false := by simp [bne, h]
      rw [splitChar_cons_pos sep c rest h]
      simp [List.takeWhile_cons, hb]
    · have h' : (c == sep) = false := Bool.eq_false_iff.mpr h
      have hb : (c != sep) = true := by simp [bne, h']
      rw [splitChar_cons_neg sep c rest h']
      simp only [List.headD_cons, List.takeWhile_cons, hb, if_true]
      rw [ih]

/-- Helper: segment count at a cons. -/
theorem splitChar_length_cons (sep c : Char) (rest : List Char) :
    (splitChar sep (c :: rest)).length =
      if c == sep then (splitChar sep rest).length + 1
      else (splitChar sep rest).length := by
  by_cases h : (c == sep) = true
  · rw [splitChar_cons_pos sep c rest h, h]
    simp
  · have h' : (c == sep) = false := Bool.eq_false_iff.mpr h
    rw [splitChar_cons_neg sep c rest h', h']
    have hr := List.length_pos.mpr (splitChar_ne_nil sep rest)
    simp only [Bool.false_eq_true, if_false, List.length_cons, List.length_tail]
    omega

/-- Helper: there is more than one segment exactly when the separator
occurs. -/
theorem splitChar_one_lt_length (sep : Char) (l : List Char) :
    1 < (splitChar sep l).length ↔ sep ∈ l := by
  induction l with
  | nil => simp [splitChar]
  | cons c rest ih =>
    rw [splitChar_length_cons, List.mem_cons]
    have hr := List.length_pos.mpr (splitChar_ne_nil sep rest)
    by_cases h : (c == sep) = true
    · have hc : c = sep := by simpa using h
      rw [h]
      simp only [if_true]
      constructor
      · intro _
        exact Or.inl hc.symm
      · intro _
        omega
    · have h' : (c == sep) = false := Bool.eq_false_iff.mpr h
      have hcne : ¬c = sep := by simpa using h
      rw [h']
      simp only [Bool.false_eq_true, if_false]
      rw [ih]
      constructor
      · intro hx
        exact Or.inr hx
      · rintro (h1 | h2)
        · exact absurd h1.symm hcne
        · exact h2

/-- Helper: `getD 0` is `headD`. -/
theorem getD_zero_eq_headD (l : List (List Char)) (d : List Char) :
    l.getD 0 d = l.headD d := by
  cases l <;> rfl

/-- Helper: when the separator occurs, the second segment is the
`sep`-free stretch between the first separator and the next one. -/
theorem splitChar_getD_one (sep : Char) (l : List Char) (h : sep ∈ l) :
    (splitChar sep l).getD 1 [] =
      ((l.dropWhile (fun c => c != sep)).tail).takeWhile (fun c => c != sep) := by
  induction l with
  | nil => simp at h
  | cons c rest ih =>
    by_cases hc : (c == sep) = true
    · have hb : (c != sep) = false := by simp [bne, hc]
      rw [splitChar_cons_pos sep c rest hc]
      simp only [List.getD_cons_succ, List.dropWhile_cons, hb,
        Bool.false_eq_true, if_false, List.tail_cons, getD_zero_eq_headD]
      exact splitChar_headD sep rest
    · have hc' : (c == sep) = false := Bool.eq_false_iff.mpr hc
      have hb : (c != sep) = true := by simp [bne, hc']
      have hcne : ¬c = sep := by simpa using hc
      have hmem : sep ∈ rest := by
        rcases List.mem_cons.mp h with h1 | h2
        · exact absurd h1.symm hcne
        · exact h2
      obtain ⟨a, t, hat⟩ :=
        List.exists_cons_of_ne_nil (splitChar_ne_nil sep rest)
      have htail : (splitChar sep rest).tail.getD 0 [] =
          (splitChar sep rest).getD 1 [] := by
        rw [hat]
        rfl
      rw [splitChar_cons_neg sep c rest hc']
      simp only [List.getD_cons_succ, List.dropWhile_cons, hb, if_true]
      rw [htail]
      exact ih hmem

/-- Helper: `dictLookup` after `firstVals` is `find?` on the groups, taking
the head value. -/
theorem dictLookup_firstVals (acc : List (String × List String)) (k : String) :
    dictLookup (firstVals acc) k =
      (acc.find? (fun q => q.1 == k)).map (fun q => q.2.headD "") := by
  unfold dictLookup firstVals
  rw [List.find?_map, Option.map_map]
  rfl

/-- Helper: one grouping step never empties a group. -/
theorem qsGroupStep_nonempty (acc : List (String × List String))
    (p : String × String) (hacc : ∀ q ∈ acc, q.2 ≠ []) :
    ∀ q ∈ qsGroupStep acc p, q.2 ≠ [] := by
  intro q hq
  unfold qsGroupStep at hq
  split at hq
  · obtain ⟨r, hr, hrq⟩ := List.mem_map.mp hq
    by_cases hk : (r.1 == p.1) = true
    · simp only [hk, if_true] at hrq
      subst hrq
      simp
    · simp only [hk, Bool.false_eq_true, if_false] at hrq
      subst hrq
      exact hacc r hr
  · rcases List.mem_append.mp hq with h1 | h2
    · exact hacc q h1
    · simp at h2
      subst h2
      simp

/-- Helper: how one grouping step changes the head value found for `k`. -/
theorem find?_qsGroupStep (acc : List (String × List String))
    (p : String × String) (k : String) (hacc : ∀ q ∈ acc, q.2 ≠ []) :
    ((qsGroupStep acc p).find? (fun q => q.1 == k)).map
        (fun q => q.2.headD "") =
      match (acc.find? (fun q => q.1 == k)).map (fun q => q.2.headD "") with
      | some v => some v
      | none => if p.1 == k then some p.2 else none := by
  unfold qsGroupStep
  by_cases hmem : (acc.any fun q => q.1 == p.1) = true
  · rw [hmem]
    simp only [if_true]
    rw [List.find?_map]
    have hpred : ((fun q : String × List String => q.1 == k) ∘
        (fun q => if q.1 == p.1 then (q.1, q.2 ++ [p.2]) else q)) =
        (fun q : String × List String => q.1 == k) := by
      funext q
      by_cases hq : (q.1 == p.1) = true <;> simp [Function.comp, hq]
    rw [hpred]
    cases hfind : acc.find? (fun q => q.1 == k) with
    | none =>
      have hall := List.find?_eq_none.mp hfind
      obtain ⟨q, hqmem, hq⟩ := List.any_eq_true.mp hmem
      have hq1 : q.1 = p.1 := by simpa using hq
      have hpk : (p.1 == k) = false := by
        apply Bool.eq_false_iff.mpr
        intro hcon
        have hk : p.1 = k := by simpa using hcon
        exact hall q hqmem (by simp [hq1, hk])
      simp [hfind, hpk]
    | some q =>
      have hq1 := List.find?_some hfind
      have hqmem := List.mem_of_find?_eq_some hfind
      have hqne : q.2 ≠ [] := hacc q hqmem
      by_cases hqp : (q.1 == p.1) = true
      · simp only [Option.map_some', hqp, if_true]
        cases hv : q.2 with
        | nil => exact absurd hv hqne
        | cons v vs => simp
      · have hqne2 : ¬q.1 = p.1 := by simpa using hqp
        simp [hqne2]
  · have hmem' : (acc.any fun q => q.1 == p.1) = false := Bool.eq_false_iff.mpr hmem
    rw [hmem']
    simp only [Bool.false_eq_true, if_false]
    rw [List.find?_append]
    cases hfind : acc.find? (fun q => q.1 == k) with
    | none =>
      simp only [Option.none_or, Option.map_none]
      by_cases hpk : (p.1 == k) = true
      · simp [List.find?, hpk]
      · have hpk' : (p.1 == k) = false := Bool.eq_false_iff.mpr hpk
        simp [List.find?, hpk']
    | some q => simp [Option.or]

/-- Helper: after folding the whole pair list, the head value found for `k`
is the first occurrence of `k` in the pair list (or whatever the
accumulator already held). -/
theorem foldl_qsGroupStep_lookup (l : List (String × String)) :
    ∀ (acc : List (String × List String)), (∀ q ∈ acc, q.2 ≠ []) →
    ∀ k, ((l.foldl qsGroupStep acc).find? (fun q => q.1 == k)).map
        (fun q => q.2.headD "") =
      match (acc.find? (fun q => q.1 == k)).map (fun q => q.2.headD "") with
      | some v => some v
      | none => (l.find? (fun p => p.1 == k)).map (fun p => p.2) := by
  induction l with
  | nil =>
    intro acc hacc k
    simp only [List.foldl_nil, List.find?_nil, Option.map_none]
    cases (acc.find? (fun q => q.1 == k)).map (fun q => q.2.headD "") <;> rfl
  | cons p t ih =>
    intro acc hacc k
    simp only [List.foldl_cons]
    rw [ih (qsGroupStep acc p) (qsGroupStep_nonempty acc p hacc) k,
      find?_qsGroupStep acc p k hacc]
    by_cases hpk : (p.1 == k) = true
    · cases hq : (acc.find? (fun q => q.1 == k)).map (fun q => q.2.headD "") with
      | none => simp [hpk, List.find?, hq]
      | some v => simp [hpk, List.find?, hq]
    · have hpk' : (p.1 == k) = false := Bool.eq_false_iff.mpr hpk
      cases hq : (acc.find? (fun q => q.1 == k)).map (fun q => q.2.headD "") with
      | none => simp [hpk', List.find?, hq]
      | some v => simp [hpk', List.find?, hq]

/-- C6 counterexample: for a URL containing two `?`, the code parses only
the segment between the first and second `?` (because `url.split("?")`
splits at every occurrence), not the whole remainder after the first `?`
as the claim describes; `specSplitAtFirstQ` is the claim's described
behaviour. -/
theorem claim_C6_counterexample :
    NetsuiteOAuth.parse_url_parameters "https://x.test/a?b=1?c=2" =
      ("https://x.test/a", some [("b", "1")]) ∧
    specSplitAtFirstQ "https://x.test/a?b=1?c=2" =
      ("https://x.test/a", some [("b", "1?c=2")]) ∧
    NetsuiteOAuth.parse_url_parameters "https://x.test/a?b=1?c=2" ≠
      specSplitAtFirstQ "https://x.test/a?b=1?c=2" := by
  refine ⟨by decide, by decide, by decide⟩

/-- C6 (amended): the base URL is the part before the first `?`; for a URL
with no `?` the parameter mapping is absent and the base URL is the whole
input; for a URL with a `?` the RAW QUERY STRING IS THE SEGMENT BETWEEN THE
FIRST `?` AND THE NEXT `?` (or the end) — not the whole remainder — and it
is parsed into a mapping keeping, for a repeated name, only the first
occurrence; the claim's concrete examples hold. -/
theorem claim_C6_url_splitting (url : String) :
    (NetsuiteOAuth.parse_url_parameters url =
      (⟨url.data.takeWhile (fun c => c != '?')⟩,
        if '?' ∈ url.data then
          some (firstVals (parse_qs
            ⟨((url.data.dropWhile (fun c => c != '?')).tail).takeWhile
              (fun c => c != '?')⟩))
        else none)) ∧
    (∀ qs k, dictLookup (firstVals (parse_qs qs)) k =
      ((parse_qsl qs).find? (fun p => p.1 == k)).map (fun p => p.2)) ∧
    NetsuiteOAuth.parse_url_parameters "https://x.test/a?b=1&c=2" =
      ("https://x.test/a", some [("b", "1"), ("c", "2")]) ∧
    NetsuiteOAuth.parse_url_parameters "https://x.test/a" =
      ("https://x.test/a", none) := by
  refine ⟨?_, ?_, by decide, by decide⟩
  · unfold NetsuiteOAuth.parse_url_parameters
    have hlen : (pySplit url '?').length = (splitChar '?' url.data).length := by
      simp [pySplit]
    have hhead : (pySplit url '?').headD "" =
        (⟨(splitChar '?' url.data).headD []⟩ : String) := by
      unfold pySplit
      obtain ⟨a, t, hat⟩ :=
        List.exists_cons_of_ne_nil (splitChar_ne_nil '?' url.data)
      rw [hat]
      rfl
    by_cases hq : '?' ∈ url.data
    · have hgt : 1 < (pySplit url '?').length := by
        rw [hlen]
        exact (splitChar_one_lt_length '?' url.data).mpr hq
      have hget : (pySplit url '?').getD 1 "" =
          (⟨(splitChar '?' url.data).getD 1 []⟩ : String) := by
        unfold pySplit
        rw [show ("" : String) = (⟨[]⟩ : String) from rfl,
          List.getD_map (splitChar '?' url.data) []
            (fun l : List Char => (⟨l⟩ : String))]
      simp only [hgt, if_true, hq, hget, hhead, splitChar_headD,
        splitChar_getD_one '?' url.data hq]
      simp [firstVals]
    · have hle : ¬1 < (pySplit url '?').length := by
        rw [hlen]
        intro hcon
        exact hq ((splitChar_one_lt_length '?' url.data).mp hcon)
      simp only [hq, if_false]
      simp only [gt_iff_lt, hle, if_false]
      rw [hhead, splitChar_headD]
  · intro qs k
    have h := foldl_qsGroupStep_lookup (parse_qsl qs) [] (by simp) k
    rw [dictLookup_firstVals]
    unfold parse_qs
    rw [h]
    simp

/-! ### Claim C4: parameter normalization -/

/-- Helper: `lexLe` is total. -/
theorem lexLe_total (a : List Char) : ∀ b, lexLe a b = true ∨ lexLe b a = true := by
  induction a with
  | nil => intro b; exact Or.inl rfl
  | cons x xs ih =>
    intro b
    cases b with
    | nil => exact Or.inr rfl
    | cons y ys =>
      simp only [lexLe]
      by_cases h1 : x.toNat < y.toNat
      · left
        rw [if_pos h1]
      · by_cases h2 : y.toNat < x.toNat
        · right
          rw [if_pos h2]
        · rw [if_neg h1, if_neg h2, if_neg h2, if_neg h1]
          exact ih ys

/-- Helper: `lexLe` is transitive. -/
theorem lexLe_trans (a : List Char) : ∀ b c, lexLe a b = true →
    lexLe b c = true → lexLe a c = true := by
  induction a with
  | nil => intro b c _ _; rfl
  | cons x xs ih =>
    intro b c hab hbc
    cases b with
    | nil => simp [lexLe] at hab
    | cons y ys =>
      cases c with
      | nil => simp [lexLe] at hbc
      | cons z zs =>
        simp only [lexLe] at hab hbc ⊢
        split_ifs at hab hbc ⊢ <;>
          first
            | rfl
            | omega
            | exact ih ys zs hab hbc

/-- Helper: `lexLe` is antisymmetric. -/
theorem lexLe_antisymm (a : List Char) : ∀ b, lexLe a b = true →
    lexLe b a = true → a = b := by
  induction a with
  | nil =>
    intro b hab hba
    cases b with
    | nil => rfl
    | cons y ys => simp [lexLe] at hba
  | cons x xs ih =>
    intro b hab hba
    cases b with
    | nil => simp [lexLe] at hab
    | cons y ys =>
      simp only [lexLe] at hab hba
      by_cases h1 : x.toNat < y.toNat
      · have h2 : ¬y.toNat < x.toNat := by omega
        rw [if_neg h2, if_pos h1] at hba
        exact absurd hba (by simp)
      · by_cases h2 : y.toNat < x.toNat
        · rw [if_neg h1, if_pos h2] at hab
          exact absurd hab (by simp)
        · rw [if_neg h1, if_neg h2] at hab
          rw [if_neg h2, if_neg h1] at hba
          have hn : x.toNat = y.toNat := by omega
          have hxy : x = y := Char.ext (UInt32.ext hn)
          rw [hxy, ih ys hab hba]

instance : IsTotal String (fun a b => pyStrLe a b = true) :=
  ⟨fun a b => lexLe_total a.data b.data⟩

instance : IsTrans String (fun a b => pyStrLe a b = true) :=
  ⟨fun a b c hab hbc => lexLe_trans a.data b.data c.data hab hbc⟩

instance : IsAntisymm String (fun a b => pyStrLe a b = true) :=
  ⟨fun a b hab hba => String.ext (lexLe_antisymm a.data b.data hab hba)⟩

/-- Helper: sorting with the Python string order is permutation-invariant. -/
theorem insertionSort_eq_of_perm (l1 l2 : List String) (h : l1.Perm l2) :
    List.insertionSort (fun a b => pyStrLe a b = true) l1 =
      List.insertionSort (fun a b => pyStrLe a b = true) l2 :=
  List.eq_of_perm_of_sorted
    ((List.perm_insertionSort _ l1).trans
      (h.trans (List.perm_insertionSort _ l2).symm))
    (List.sorted_insertionSort _ l1) (List.sorted_insertionSort _ l2)

/-- Helper: `dictInsert` updates exactly the inserted key. -/
theorem dictLookup_dictInsert (d : Dict) (k v x : String) :
    dictLookup (dictInsert d k v) x = if x = k then some v else dictLookup d x := by
  by_cases hmem : (d.any fun p => p.1 == k) = true
  · unfold dictInsert dictLookup
    rw [hmem]
    simp only [if_true]
    rw [List.find?_map]
    have hpred : ((fun p : String × String => p.1 == x) ∘
        (fun p => if p.1 == k then (k, v) else p)) =
        (fun p : String × String => p.1 == x) := by
      funext p
      by_cases hp : (p.1 == k) = true
      · have h1 : p.1 = k := by simpa using hp
        simp [Function.comp, hp, h1]
      · have hp' : (p.1 == k) = false := Bool.eq_false_iff.mpr hp
        simp [Function.comp, hp']
    rw [hpred, Option.map_map]
    by_cases hxk : x = k
    · have hsome : (d.find? fun p => p.1 == x).isSome = true := by
        rw [List.find?_isSome]
        obtain ⟨q, hq, hqx⟩ := List.any_eq_true.mp hmem
        exact ⟨q, hq, by rw [hxk]; exact hqx⟩
      obtain ⟨q, hq⟩ := Option.isSome_iff_exists.mp hsome
      rw [hq]
      have hqx : q.1 = x := by simpa using List.find?_some hq
      have hqke : q.1 = k := by rw [hqx, hxk]
      simp [Function.comp, hqke, hxk]
    · cases hq : d.find? (fun p => p.1 == x) with
      | none => simp [hxk]
      | some q =>
        have hq1 : q.1 = x := by simpa using List.find?_some hq
        have hqkne : ¬q.1 = k := by
          rw [hq1]
          exact hxk
        simp [Function.comp, hxk, hqkne]
  · have hmem' : (d.any fun p => p.1 == k) = false := Bool.eq_false_iff.mpr hmem
    unfold dictInsert dictLookup
    rw [hmem']
    simp only [Bool.false_eq_true, if_false]
    rw [List.find?_append]
    by_cases hxk : x = k
    · rw [hxk]
      have hnone : d.find? (fun p => p.1 == k) = none := by
        rw [List.find?_eq_none]
        intro p hp hc
        have hany : (d.any fun p => p.1 == k) = true :=
          List.any_eq_true.mpr ⟨p, hp, hc⟩
        rw [hmem'] at hany
        exact absurd hany (by simp)
      rw [hnone]
      simp [List.find?]
    · have hsing : List.find? (fun p : String × String => p.1 == x) [(k, v)] =
          none := by
        rw [List.find?_eq_none]
        intro p hp hc
        simp at hp
        rw [hp] at hc
        have hkxeq : k = x := by simpa using hc
        exact hxk hkxeq.symm
      rw [hsing, Option.or_none]
      simp [hxk]

/-- Helper: key membership after `dictInsert`. -/
theorem dictKeys_mem_dictInsert (d : Dict) (k v x : String) :
    x ∈ dictKeys (dictInsert d k v) ↔ x ∈ dictKeys d ∨ x = k := by
  unfold dictInsert dictKeys
  by_cases hmem : (d.any fun p => p.1 == k) = true
  · rw [hmem]
    simp only [if_true]
    rw [List.map_map]
    have hcomp : ((fun p : String × String => p.1) ∘
        fun p => if p.1 == k then (k, v) else p) =
        (fun p : String × String => p.1) := by
      funext p
      by_cases hp : (p.1 == k) = true
      · have h1 : p.1 = k := by simpa using hp
        simp [Function.comp, hp, h1]
      · have hp' : (p.1 == k) = false := Bool.eq_false_iff.mpr hp
        simp [Function.comp, hp']
    rw [hcomp]
    constructor
    · exact Or.inl
    · rintro (h | h)
      · exact h
      · subst h
        obtain ⟨q, hq, hqx⟩ := List.any_eq_true.mp hmem
        have hq1 : q.1 = x := by simpa using hqx
        exact hq1 ▸ List.mem_map_of_mem _ hq
  · have hmem' : (d.any fun p => p.1 == k) = false := Bool.eq_false_iff.mpr hmem
    rw [hmem']
    simp only [Bool.false_eq_true, if_false, List.map_append]
    simp [List.mem_append]

/-- Helper: `dictInsert` preserves key uniqueness. -/
theorem dictKeys_nodup_dictInsert (d : Dict) (k v : String)
    (h : (dictKeys d).Nodup) : (dictKeys (dictInsert d k v)).Nodup := by
  unfold dictInsert dictKeys
  by_cases hmem : (d.any fun p => p.1 == k) = true
  · rw [hmem]
    simp only [if_true]
    rw [List.map_map]
    have hcomp : ((fun p : String × String => p.1) ∘
        fun p => if p.1 == k then (k, v) else p) =
        (fun p : String × String => p.1) := by
      funext p
      by_cases hp : (p.1 == k) = true
      · have h1 : p.1 = k := by simpa using hp
        simp [Function.comp, hp, h1]
      · have hp' : (p.1 == k) = false := Bool.eq_false_iff.mpr hp
        simp [Function.comp, hp']
    rw [hcomp]
    exact h
  · have hmem' : (d.any fun p => p.1 == k) = false := Bool.eq_false_iff.mpr hmem
    rw [hmem']
    simp only [Bool.false_eq_true, if_false, List.map_append]
    rw [List.nodup_append]
    refine ⟨h, by simp, ?_⟩
    intro a ha hk
    simp at hk
    obtain ⟨p, hp, hpa⟩ := List.mem_map.mp ha
    have hfalse : (d.any fun p => p.1 == k) = true :=
      List.any_eq_true.mpr ⟨p, hp, by simp [hpa, hk]⟩
    rw [hmem'] at hfalse
    exact absurd hfalse (by simp)

/-- Helper: a failed lookup means the key is absent. -/
theorem dictLookup_eq_none_iff (l : Dict) (x : String) :
    dictLookup l x = none ↔ x ∉ dictKeys l := by
  unfold dictLookup dictKeys
  rw [Option.map_eq_none', List.find?_eq_none]
  constructor
  · intro h hx
    obtain ⟨p, hp, hpx⟩ := List.mem_map.mp hx
    exact h p hp (by simp [hpx])
  · intro h p hp hpx
    have hp1 : p.1 = x := by simpa using hpx
    exact h (List.mem_map.mpr ⟨p, hp, hp1⟩)

/-- Helper: key membership after inserting a whole dictionary. -/
theorem dictKeys_mem_insertAll (l : Dict) : ∀ (d : Dict) (x : String),
    x ∈ dictKeys (dictInsertAll d l) ↔ x ∈ dictKeys d ∨ x ∈ dictKeys l := by
  induction l with
  | nil => intro d x; simp [dictInsertAll, dictKeys]
  | cons p t ih =>
    intro d x
    rw [show dictInsertAll d (p :: t) = dictInsertAll (dictInsert d p.1 p.2) t
      from rfl]
    rw [ih, dictKeys_mem_dictInsert]
    have hk : dictKeys (p :: t) = p.1 :: dictKeys t := rfl
    rw [hk, List.mem_cons]
    tauto

/-- Helper: inserting a whole dictionary preserves key uniqueness. -/
theorem dictKeys_nodup_insertAll (l : Dict) : ∀ d : Dict,
    (dictKeys d).Nodup → (dictKeys (dictInsertAll d l)).Nodup := by
  induction l with
  | nil => intro d h; exact h
  | cons p t ih =>
    intro d h
    exact ih _ (dictKeys_nodup_dictInsert d p.1 p.2 h)

/-- Helper: lookup skips a head entry with a different key. -/
theorem dictLookup_cons_of_ne (a : String × String) (t : List (String × String))
    (x : String) (h : ¬a.1 = x) : dictLookup (a :: t) x = dictLookup t x := by
  unfold dictLookup
  have hfind : List.find? (fun q : String × String => q.1 == x) (a :: t) =
      List.find? (fun q : String × String => q.1 == x) t := by
    apply List.find?_cons_of_neg
    simpa using h
  rw [hfind]

/-- Helper: lookup finds a head entry with a matching key. -/
theorem dictLookup_cons_self (a : String × String) (t : List (String × String))
    (x : String) (h : a.1 = x) : dictLookup (a :: t) x = some a.2 := by
  unfold dictLookup
  have hfind : List.find? (fun q : String × String => q.1 == x) (a :: t) =
      some a := by
    apply List.find?_cons_of_pos
    simpa using h
  rw [hfind]
  rfl

/-- Helper: lookup after inserting a dictionary with unique keys: the
inserted dictionary wins on its own keys. -/
theorem dictLookup_insertAll (l : Dict) : (dictKeys l).Nodup →
    ∀ (d : Dict) (x : String),
    dictLookup (dictInsertAll d l) x =
      match dictLookup l x with
      | some v => some v
      | none => dictLookup d x := by
  induction l with
  | nil =>
    intro _ d x
    rfl
  | cons p t ih =>
    intro hn d x
    have hcons : p.1 ∉ dictKeys t ∧ (dictKeys t).Nodup := by
      have hk : dictKeys (p :: t) = p.1 :: dictKeys t := rfl
      rw [hk] at hn
      exact List.nodup_cons.mp hn
    rw [show dictInsertAll d (p :: t) = dictInsertAll (dictInsert d p.1 p.2) t
      from rfl]
    by_cases hx : x = p.1
    · have hnone : dictLookup t x = none := by
        rw [dictLookup_eq_none_iff, hx]
        exact hcons.1
      have hfirst : dictLookup (p :: t) x = some p.2 :=
        dictLookup_cons_self p t x hx.symm
      rw [ih hcons.2, hnone, hfirst]
      show dictLookup (dictInsert d p.1 p.2) x = some p.2
      rw [dictLookup_dictInsert, if_pos hx]
    · have hrhs : dictLookup (p :: t) x = dictLookup t x :=
        dictLookup_cons_of_ne p t x (fun hc => hx hc.symm)
      rw [ih hcons.2, hrhs, dictLookup_dictInsert, if_neg hx]

/-- Helper: a successful lookup produces a member pair. -/
theorem dictLookup_some_mem (l : Dict) (x v : String)
    (h : dictLookup l x = some v) : (x, v) ∈ l := by
  unfold dictLookup at h
  obtain ⟨q, hfind, hq2⟩ := Option.map_eq_some'.mp h
  have hq1 : q.1 = x := by simpa using List.find?_some hfind
  have hqmem := List.mem_of_find?_eq_some hfind
  have hq : q = (x, v) := Prod.ext hq1 hq2
  exact hq ▸ hqmem

/-- Helper: with unique keys, membership determines the lookup. -/
theorem dictLookup_eq_some_of_mem (l : Dict) : (dictKeys l).Nodup →
    ∀ x v, (x, v) ∈ l → dictLookup l x = some v := by
  induction l with
  | nil => intro _ x v h; simp at h
  | cons p t ih =>
    intro hn x v hmem
    have hcons : p.1 ∉ dictKeys t ∧ (dictKeys t).Nodup := by
      have hk : dictKeys (p :: t) = p.1 :: dictKeys t := rfl
      rw [hk] at hn
      exact List.nodup_cons.mp hn
    rcases List.mem_cons.mp hmem with h1 | h2
    · rw [← h1]
      exact dictLookup_cons_self (x, v) t x rfl
    · have hx : ¬p.1 = x := by
        intro hc
        have hxmem : x ∈ dictKeys t := List.mem_map.mpr ⟨(x, v), h2, rfl⟩
        exact hcons.1 (hc ▸ hxmem)
      rw [dictLookup_cons_of_ne p t x hx]
      exact ih hcons.2 x v h2

/-- Helper: lookups are invariant under permutation when keys are unique. -/
theorem dictLookup_perm (l1 l2 : Dict) (h : l1.Perm l2)
    (hn : (dictKeys l1).Nodup) (x : String) :
    dictLookup l1 x = dictLookup l2 x := by
  have hperm : (dictKeys l1).Perm (dictKeys l2) := by
    unfold dictKeys
    exact h.map fun p => p.1
  have hn2 : (dictKeys l2).Nodup := hperm.nodup hn
  cases hq : dictLookup l1 x with
  | some v =>
    have hmem : (x, v) ∈ l2 := h.mem_iff.mp (dictLookup_some_mem l1 x v hq)
    exact (dictLookup_eq_some_of_mem l2 hn2 x v hmem).symm
  | none =>
    rw [dictLookup_eq_none_iff] at hq
    have hnot : x ∉ dictKeys l2 := fun hc => hq (hperm.mem_iff.mpr hc)
    exact ((dictLookup_eq_none_iff l2 x).mpr hnot).symm

/-- Helper: `intercalate.go` peels a prefix off its accumulator. -/
theorem intercalate_go_prefix (as : List String) : ∀ (x y s : String),
    String.intercalate.go (x ++ y) s as = x ++ String.intercalate.go y s as := by
  induction as with
  | nil => intro x y s; rfl
  | cons c cs ih =>
    intro x y s
    show String.intercalate.go (x ++ y ++ s ++ c) s cs =
      x ++ String.intercalate.go (y ++ s ++ c) s cs
    rw [String.append_assoc x y s, String.append_assoc x (y ++ s) c]
    exact ih x (y ++ s ++ c) s

/-- Helper: `intercalate` on a two-or-more-element list. -/
theorem intercalate_cons_cons (s a b : String) (bs : List String) :
    String.intercalate s (a :: b :: bs) =
      (a ++ s) ++ String.intercalate s (b :: bs) := by
  show String.intercalate.go ((a ++ s) ++ b) s bs =
    (a ++ s) ++ String.intercalate.go b s bs
  exact intercalate_go_prefix bs (a ++ s) b s

/-- Helper: fold of string append with a general accumulator. -/
theorem foldl_append_acc (xs : List String) : ∀ acc : String,
    xs.foldl (fun r s => r ++ s) acc =
      acc ++ xs.foldl (fun r s => r ++ s) "" := by
  induction xs with
  | nil => intro acc; rw [List.foldl_nil, List.foldl_nil, String.append_empty]
  | cons x t ih =>
    intro acc
    simp only [List.foldl_cons]
    rw [ih (acc ++ x), ih ("" ++ x), String.empty_append, String.append_assoc]

/-- Helper: `String.join` on a cons. -/
theorem join_cons (x : String) (xs : List String) :
    String.join (x :: xs) = x ++ String.join xs := by
  show (x :: xs).foldl (fun r s => r ++ s) "" =
    x ++ xs.foldl (fun r s => r ++ s) ""
  simp only [List.foldl_cons]
  rw [foldl_append_acc xs ("" ++ x), String.empty_append]

/-- Helper: the parameter-string loop accumulates by appending. -/
theorem foldl_param_eq_join (pairs : List (String × String)) : ∀ acc : String,
    pairs.foldl (fun acc p => acc ++ p.1 ++ "=" ++ p.2 ++ "&") acc =
      acc ++ String.join (pairs.map (fun p => p.1 ++ "=" ++ p.2 ++ "&")) := by
  induction pairs with
  | nil =>
    intro acc
    rw [List.foldl_nil, List.map_nil]
    exact (String.append_empty acc).symm
  | cons p t ih =>
    intro acc
    simp only [List.foldl_cons, List.map_cons]
    rw [ih (acc ++ p.1 ++ "=" ++ p.2 ++ "&"), join_cons]
    simp [String.append_assoc]

/-- Helper: joining `&`-terminated pieces is intercalation plus a trailing
ampersand. -/
theorem join_amp_eq_intercalate (pieces : List String) :
    String.join (pieces.map (fun x => x ++ "&")) =
      if pieces.isEmpty then "" else String.intercalate "&" pieces ++ "&" := by
  induction pieces with
  | nil => rfl
  | cons a as ih =>
    simp only [List.map_cons, join_cons, List.isEmpty_cons, Bool.false_eq_true,
      if_false]
    rw [ih]
    cases as with
    | nil =>
      have h1 : String.intercalate "&" [a] = a := rfl
      simp [h1, String.append_empty]
    | cons b bs =>
      simp only [List.isEmpty_cons, Bool.false_eq_true, if_false]
      rw [intercalate_cons_cons]
      simp [String.append_assoc]

/-- Helper: dropping the final character of an `&`-terminated string. -/
theorem dropLastChar_append_amp (s : String) :
    NetsuiteOAuth.dropLastChar (s ++ "&") = s := by
  apply String.ext
  show (s ++ "&").data.dropLast = s.data
  rw [String.data_append]
  exact List.dropLast_concat

/-- Helper: the parameter-string loop followed by dropping the trailing
ampersand is exactly `&`-intercalation of the `name=value` pairs. -/
theorem paramStringOf_eq_intercalate (pairs : List (String × String)) :
    NetsuiteOAuth.paramStringOf pairs =
      String.intercalate "&" (pairs.map (fun p => p.1 ++ "=" ++ p.2)) := by
  cases pairs with
  | nil => exact String.ext rfl
  | cons p t =>
    unfold NetsuiteOAuth.paramStringOf
    rw [foldl_param_eq_join (p :: t) "", String.empty_append]
    have hmap : (p :: t).map (fun q => q.1 ++ "=" ++ q.2 ++ "&") =
        ((p :: t).map (fun q => q.1 ++ "=" ++ q.2)).map (fun x => x ++ "&") := by
      rw [List.map_map]
      simp [Function.comp]
    rw [hmap, join_amp_eq_intercalate]
    simp only [List.map_cons, List.isEmpty_cons, Bool.false_eq_true, if_false]
    exact dropLastChar_append_amp _

/-- Helper: with query parameters present (even an empty dict), the
parameter dictionary is the insert-all fold over the base dictionary. -/
theorem request_params_all_some (st : NetsuiteOAuth) (qp : Dict) :
    st.request_params_all (some qp) = dictInsertAll st.request_params_base qp := by
  cases qp with
  | nil => rfl
  | cons p t =>
    have h : ((p :: t : Dict).isEmpty) = false := rfl
    simp [NetsuiteOAuth.request_params_all, h]

/-- Helper: the six base parameter names are distinct. -/
theorem base_keys_nodup (st : NetsuiteOAuth) :
    (dictKeys st.request_params_base).Nodup := by
  have h : dictKeys st.request_params_base = oauthParamNames := rfl
  rw [h]
  decide

/-- C4: parameter normalization is order-independent (any permutation of the
query-parameter set with unique names yields the identical normalized
output); the entries are exactly the six OAuth protocol parameters plus the
URL query parameters, never `oauth_signature`; they are sorted by the
ascending code-point (= byte-value) order of the names; and the output is
the `name=value` pairs joined with `&` and percent-encoded once as a single
unit. -/
theorem claim_C4_normalization (st : NetsuiteOAuth) (qp1 qp2 : Dict)
    (h1 : (dictKeys qp1).Nodup) (hperm : qp1.Perm qp2)
    (hsig : "oauth_signature" ∉ dictKeys qp1) :
    (st.normalize_request_parameters (some qp1) =
      st.normalize_request_parameters (some qp2)) ∧
    (∀ k, k ∈ (st.sorted_param_pairs (some qp1)).map Prod.fst ↔
      (k ∈ oauthParamNames ∨ k ∈ dictKeys qp1)) ∧
    ("oauth_signature" ∉ (st.sorted_param_pairs (some qp1)).map Prod.fst) ∧
    List.Sorted (fun a b => pyStrLe a b = true)
      ((st.sorted_param_pairs (some qp1)).map Prod.fst) ∧
    ((st.normalize_request_parameters (some qp1)).normalized_request_parameters =
      some (NetsuiteOAuth.encode_oauth (String.intercalate "&"
        ((st.sorted_param_pairs (some qp1)).map (fun p => p.1 ++ "=" ++ p.2))))) := by
  have hkeysqp : (dictKeys qp1).Perm (dictKeys qp2) := by
    unfold dictKeys
    exact hperm.map fun p => p.1
  have h2 : (dictKeys qp2).Nodup := hkeysqp.nodup h1
  have hrp1 : st.request_params_all (some qp1) =
      dictInsertAll st.request_params_base qp1 := request_params_all_some st qp1
  have hrp2 : st.request_params_all (some qp2) =
      dictInsertAll st.request_params_base qp2 := request_params_all_some st qp2
  have hn1 : (dictKeys (dictInsertAll st.request_params_base qp1)).Nodup :=
    dictKeys_nodup_insertAll qp1 _ (base_keys_nodup st)
  have hn2 : (dictKeys (dictInsertAll st.request_params_base qp2)).Nodup :=
    dictKeys_nodup_insertAll qp2 _ (base_keys_nodup st)
  have hmemiff : ∀ x, x ∈ dictKeys (dictInsertAll st.request_params_base qp1) ↔
      x ∈ dictKeys (dictInsertAll st.request_params_base qp2) := by
    intro x
    rw [dictKeys_mem_insertAll, dictKeys_mem_insertAll]
    have hx : x ∈ dictKeys qp1 ↔ x ∈ dictKeys qp2 := hkeysqp.mem_iff
    tauto
  have hkeysperm : (dictKeys (dictInsertAll st.request_params_base qp1)).Perm
      (dictKeys (dictInsertAll st.request_params_base qp2)) :=
    (List.perm_ext_iff_of_nodup hn1 hn2).mpr hmemiff
  have hsortedeq := insertionSort_eq_of_perm _ _ hkeysperm
  have hlook : ∀ k, dictLookup (dictInsertAll st.request_params_base qp1) k =
      dictLookup (dictInsertAll st.request_params_base qp2) k := by
    intro k
    rw [dictLookup_insertAll qp1 h1, dictLookup_insertAll qp2 h2,
      dictLookup_perm qp1 qp2 hperm h1 k]
  have hpairs : st.sorted_param_pairs (some qp1) =
      st.sorted_param_pairs (some qp2) := by
    simp only [NetsuiteOAuth.sorted_param_pairs]
    rw [hrp1, hrp2, hsortedeq]
    apply List.map_congr_left
    intro k _
    rw [hlook k]
  have hkeys_pairs : (st.sorted_param_pairs (some qp1)).map Prod.fst =
      List.insertionSort (fun a b => pyStrLe a b = true)
        (dictKeys (dictInsertAll st.request_params_base qp1)) := by
    simp only [NetsuiteOAuth.sorted_param_pairs]
    rw [hrp1, List.map_map]
    have hid : (Prod.fst ∘ fun k : String =>
        (k, (dictLookup (dictInsertAll st.request_params_base qp1) k).getD "")) =
        id := by
      funext k
      rfl
    rw [hid, List.map_id]
  have hbasenames : dictKeys st.request_params_base = oauthParamNames := rfl
  refine ⟨?_, ?_, ?_, ?_, ?_⟩
  · unfold NetsuiteOAuth.normalize_request_parameters
    rw [hpairs]
  · intro k
    rw [hkeys_pairs, List.mem_insertionSort, dictKeys_mem_insertAll, hbasenames]
  · rw [hkeys_pairs, List.mem_insertionSort, dictKeys_mem_insertAll, hbasenames]
    rintro (h | h)
    · revert h
      decide
    · exact hsig h
  · rw [hkeys_pairs]
    exact List.sorted_insertionSort _ _
  · unfold NetsuiteOAuth.normalize_request_parameters
    rw [paramStringOf_eq_intercalate]

/-- Witness for C4 at a concrete parameter set given in two orders. -/
theorem claim_C4_witness :
    (wAuth.normalize_request_parameters (some [("b", "1"), ("c", "2")]) =
      wAuth.normalize_request_parameters (some [("c", "2"), ("b", "1")])) ∧
    (∀ k, k ∈ (wAuth.sorted_param_pairs
        (some [("b", "1"), ("c", "2")])).map Prod.fst ↔
      (k ∈ oauthParamNames ∨ k ∈ dictKeys [("b", "1"), ("c", "2")])) ∧
    ("oauth_signature" ∉ (wAuth.sorted_param_pairs
      (some [("b", "1"), ("c", "2")])).map Prod.fst) ∧
    List.Sorted (fun a b => pyStrLe a b = true)
      ((wAuth.sorted_param_pairs (some [("b", "1"), ("c", "2")])).map Prod.fst) ∧
    ((wAuth.normalize_request_parameters
        (some [("b", "1"), ("c", "2")])).normalized_request_parameters =
      some (NetsuiteOAuth.encode_oauth (String.intercalate "&"
        ((wAuth.sorted_param_pairs (some [("b", "1"), ("c", "2")])).map
          (fun p => p.1 ++ "=" ++ p.2))))) :=
  claim_C4_normalization wAuth [("b", "1"), ("c", "2")] [("c", "2"), ("b", "1")]
    (by decide) (by decide) (by decide)

end Restsuite
